import Mathlib

/-!
# Verification of the target normalization / scope engine and pipeline orchestration core

This file gives a shallow embedding, in Lean 4, of the core of the
security-pipeline repository: `src/lib/target.js`, `src/lib/targets.js`,
`src/lib/schema.js`, `src/lib/scope.js` and the orchestration loop of
`src/bin/run-pipeline.js`, together with proofs and refutations of the
specified properties.

Modelling conventions:
* JavaScript strings are modelled as Lean `String`s; the string ordering used
  by the code (`<` on JS strings, i.e. lexicographic comparison of code
  units) is modelled by `jsStrLt` below, and the ASCII subset of
  `toLowerCase`/`trim` is modelled (`jsToLower`, `jsTrim`).  All inputs the
  claims exercise are ASCII.
* Platform primitives used by the code are modelled explicitly:
  `new URL(...)` (WHATWG URL parser) by `parseURL` (special-scheme subset:
  scheme/host/port/path/query/fragment splitting, host lowercasing, default
  port elision, throwing on empty or invalid hosts and invalid ports; IDNA,
  percent-encoding and dot-segment normalization are not modelled),
  `crypto.createHash('sha1')` by a full executable SHA-1 (`sha1Hex`),
  `JSON.parse` by an explicit parameter `jp : String → Option JSVal` of the
  record-stream functions, and `net.isIP` by `netIsIP`.
* JavaScript objects are modelled by `JSVal` with insertion-ordered key/value
  lists; `||`-style truthiness fallbacks by `jsOr` / `jsOrS`.
* The wall clock (`new Date().toISOString()`) is passed as an explicit
  `now : String` parameter.
-/

/-! ## JS string primitives -/

/-- Whitespace recognized by the model of JS `String.prototype.trim`
(ASCII whitespace; the inputs in play contain no exotic space characters). -/
def jsWhitespaceChar (c : Char) : Bool :=
  c = ' ' || c = '\t' || c = '\n' || c = '\r' || c = '\x0b' || c = '\x0c'

/-- Model of JS `trim()`: drop leading and trailing whitespace. -/
def jsTrim (s : String) : String :=
  ⟨((s.data.dropWhile jsWhitespaceChar).reverse.dropWhile jsWhitespaceChar).reverse⟩

/-- ASCII lowercase of one character (model of `toLowerCase` on the ASCII range). -/
def asciiLower (c : Char) : Char :=
  if 'A' ≤ c ∧ c ≤ 'Z' then Char.ofNat (c.toNat + 32) else c

/-- Model of JS `toLowerCase()` (ASCII subset). -/
def jsToLower (s : String) : String := ⟨s.data.map asciiLower⟩

/-- Model of `replace(/\.$/, '')`: strip at most one trailing dot. -/
def stripTrailingDot (s : String) : String :=
  match s.data.reverse with
  | '.' :: rest => ⟨rest.reverse⟩
  | _ => s

/-- Does the string contain one of the given characters? -/
def strContainsAny (s : String) (cs : List Char) : Bool :=
  s.data.any (fun c => cs.contains c)

def isAsciiDigit (c : Char) : Bool := '0' ≤ c ∧ c ≤ '9'

def isAsciiAlpha (c : Char) : Bool := ('a' ≤ c ∧ c ≤ 'z') ∨ ('A' ≤ c ∧ c ≤ 'Z')

/-- Numeric value of a digit string (all characters assumed decimal digits). -/
def natOfDigits (l : List Char) : Nat :=
  l.foldl (fun acc c => acc * 10 + (c.toNat - '0'.toNat)) 0

/-- JS string `<` : lexicographic comparison of code units.
(All strings in play are ASCII, where code-unit order and code-point order agree.) -/
def jsLtChars : List Char → List Char → Bool
  | [], [] => false
  | [], _ :: _ => true
  | _ :: _, [] => false
  | a :: as, b :: bs =>
    if a < b then true
    else if b < a then false
    else jsLtChars as bs

def jsStrLt (a b : String) : Bool := jsLtChars a.data b.data

/-- Truthiness fallback `a || b` on strings (`""` is falsy). -/
def jsOrS (a b : String) : String := if a = "" then b else a

/-- JS `startsWith` (code-unit prefix test, stated so the kernel reduces it). -/
def strStartsWith (s pre : String) : Bool :=
  decide (s.data.take pre.length = pre.data)

/-- JS `endsWith`. -/
def strEndsWith (s suf : String) : Bool :=
  decide (s.data.reverse.take suf.length = suf.data.reverse)

/-! ## Model of `src/lib/target.js` -/

/-- `normalizeHost`: `String(raw || '').trim().toLowerCase().replace(/\.$/, '')`. -/
def normalizeHost (raw : String) : String :=
  stripTrailingDot (jsToLower (jsTrim raw))

/-- `hasScheme`: test of `/^[a-zA-Z][a-zA-Z0-9+.-]*:\/\//`.  The character
class excludes `:` and `/`, so greedy maximal munch is exact. -/
def schemeChar (c : Char) : Bool :=
  isAsciiAlpha c || isAsciiDigit c || c = '+' || c = '.' || c = '-'

def hasScheme (raw : String) : Bool :=
  match raw.data with
  | [] => false
  | c :: rest =>
    isAsciiAlpha c &&
      (match rest.dropWhile schemeChar with
       | ':' :: '/' :: '/' :: _ => true
       | _ => false)

/-- Helper for `isIpv4Cidr`: consume one or more digits, returning the rest. -/
def eatDigits1 : List Char → Option (List Char)
  | c :: rest => if isAsciiDigit c then some (rest.dropWhile isAsciiDigit) else none
  | [] => none

/-- `isIpv4Cidr`: test of `/^\d+\.\d+\.\d+\.\d+\/\d{1,2}$/`. -/
def isIpv4Cidr (raw : String) : Bool :=
  let step (l : List Char) : Option (List Char) :=
    match eatDigits1 l with
    | some ('.' :: rest) => some rest
    | _ => none
  match step raw.data with
  | none => false
  | some l₁ =>
    match step l₁ with
    | none => false
    | some l₂ =>
      match step l₂ with
      | none => false
      | some l₃ =>
        match eatDigits1 l₃ with
        | some ('/' :: rest) =>
          decide (1 ≤ rest.length ∧ rest.length ≤ 2) && rest.all isAsciiDigit
        | _ => false

/-- Test of `/^[^\/]+:\d{1,5}$/` (`host:port` shape).  Since the digit run of
a match must directly follow the last colon, the regex matches exactly when
the maximal trailing digit run has length 1–5, is preceded by `:`, and the
part before that colon is nonempty and contains no `/`. -/
def hostPortShape (raw : String) : Bool :=
  let rev := raw.data.reverse
  let ds := rev.takeWhile isAsciiDigit
  match rev.drop ds.length with
  | ':' :: pre =>
    decide (1 ≤ ds.length ∧ ds.length ≤ 5) && decide (pre ≠ []) && !pre.contains '/'
  | _ => false

/-- `looksLikeUrl` from `src/lib/target.js`. -/
def looksLikeUrl (raw : String) : Bool :=
  if raw = "" then false
  else if hasScheme raw then true
  else if isIpv4Cidr raw then false
  else if strContainsAny raw ['/', '?', '#'] then true
  else hostPortShape raw

inductive TKind where
  | domain
  | url
deriving DecidableEq, Repr

/-- Target-info object produced by `normalizeTarget` / `normalizeUrl` /
`normalizeDomain` (fields absent in JS are `none`). -/
structure TargetInfo where
  raw : String
  kind : TKind
  host : String
  scheme : Option String := none
  url : Option String := none
  origin : Option String := none
  port : Option Nat := none
  normalizedTarget : String
deriving DecidableEq, Repr

/-- `normalizeDomain`. -/
def normalizeDomain (raw : String) : TargetInfo :=
  let host := normalizeHost raw
  { raw := raw, kind := .domain, host := host, normalizedTarget := host }

/-! ### Model of the WHATWG URL parser (`new URL(...)`) -/

/-- The fields of a parsed URL that `normalizeUrl` / `urlPath` read.
`protocol` keeps the trailing colon as in the URL API; `port` is already
the string form with the scheme's default port elided (as WHATWG does);
`search` is `""` or starts with `?`. -/
structure UrlParts where
  protocol : String
  hostname : String
  port : String
  pathname : String
  search : String
deriving DecidableEq, Repr

/-- Split a character list at the first occurrence of `"://"`. -/
def splitSchemeRest : List Char → Option (List Char × List Char)
  | [] => none
  | ':' :: '/' :: '/' :: rest => some ([], rest)
  | c :: rest =>
    match splitSchemeRest rest with
    | some (pre, post) => some (c :: pre, post)
    | none => none

/-- WHATWG forbidden host code points (the subset relevant to ASCII input). -/
def forbiddenHostChar (c : Char) : Bool :=
  c = '\x00' || c = '\t' || c = '\n' || c = '\r' || c = ' ' || c = '#' ||
  c = '/' || c = ':' || c = '<' || c = '>' || c = '?' || c = '@' ||
  c = '[' || c = '\\' || c = ']' || c = '^' || c = '|' || c = '%'

/-- Take the part of the authority after the last `@` (drop userinfo). -/
def dropUserinfo (auth : List Char) : List Char :=
  match (auth.reverse.takeWhile (· ≠ '@')).reverse with
  | hp => if auth.contains '@' then hp else auth

/-- Split `host[:port]`, handling a bracketed IPv6 host. -/
def splitHostPort (hp : List Char) : Option (List Char × Option (List Char)) :=
  match hp with
  | '[' :: rest =>
    let inside := rest.takeWhile (· ≠ ']')
    match rest.drop inside.length with
    | ']' :: tail =>
      match tail with
      | [] => some ('[' :: inside ++ [']'], none)
      | ':' :: p => some ('[' :: inside ++ [']'], some p)
      | _ => none
    | _ => none
  | _ =>
    let host := hp.takeWhile (· ≠ ':')
    match hp.drop host.length with
    | [] => some (host, none)
    | ':' :: p => some (host, some p)
    | _ => none

def isDefaultPort (scheme : String) (n : Nat) : Bool :=
  (scheme = "http" && n = 80) || (scheme = "https" && n = 443) ||
  (scheme = "ws" && n = 80) || (scheme = "wss" && n = 443) ||
  (scheme = "ftp" && n = 21)

/-- Model of the platform primitive `new URL(s)` for absolute URLs with an
explicit `://`, returning `none` where the constructor throws.  Covered:
scheme and host lowercasing, userinfo stripping, bracketed IPv6 hosts,
port validation (`≤ 65535`, digits only, empty port ignored), WHATWG default
port elision, path defaulting to `/`, query preserved without an empty `?`,
fragment dropped.  Not modelled: IDNA/punycode, percent-encoding, dot-segment
removal, backslash-as-slash, numeric IPv4 host canonicalization. -/
def parseURL (s : String) : Option UrlParts :=
  match splitSchemeRest s.data with
  | none => none
  | some (schemeRaw, rest) =>
    let scheme : String := jsToLower ⟨schemeRaw⟩
    match scheme.data with
    | [] => none
    | c :: cs =>
      if ¬ (isAsciiAlpha c && cs.all schemeChar) then none
      else
        let authority := rest.takeWhile (fun c => ¬ (c = '/' ∨ c = '?' ∨ c = '#'))
        let after := rest.drop authority.length
        match splitHostPort (dropUserinfo authority) with
        | none => none
        | some (hostRaw, portOpt) =>
          let host : String := jsToLower ⟨hostRaw⟩
          if host = "" then none
          else if (¬ hostRaw.head?.getD ' ' = '[') && host.data.any forbiddenHostChar then none
          else
            let portRes : Option String :=
              match portOpt with
              | none => some ""
              | some [] => some ""
              | some p =>
                if p.all isAsciiDigit then
                  let n := natOfDigits p
                  if n > 65535 then none
                  else if isDefaultPort scheme n then some ""
                  else some (toString n)
                else none
            match portRes with
            | none => none
            | some portStr =>
              let path := after.takeWhile (fun c => ¬ (c = '?' ∨ c = '#'))
              let afterPath := after.drop path.length
              let query :=
                match afterPath with
                | '?' :: qs =>
                  let q := qs.takeWhile (· ≠ '#')
                  if q = [] then "" else ⟨'?' :: q⟩
                | _ => ""
              some { protocol := scheme ++ ":"
                     hostname := host
                     port := portStr
                     pathname := if path = [] then "/" else ⟨path⟩
                     search := query }

/-- Strip a trailing colon (`String(parsed.protocol || '').replace(/:$/, '')`). -/
def stripTrailingColon (s : String) : String :=
  match s.data.reverse with
  | ':' :: rest => ⟨rest.reverse⟩
  | _ => s

/-- The string handed to `new URL(...)`: the default scheme is prepended
when none is present. -/
def urlInputOf (trimmed : String) : String :=
  if hasScheme trimmed then trimmed else "https://" ++ trimmed

/-- `normalizeUrl` from `src/lib/target.js` (with the default
`opts.defaultScheme = 'https'`, the only value used on the verified paths). -/
def normalizeUrl (raw : String) : TargetInfo :=
  let trimmed := jsTrim raw
  let input := urlInputOf trimmed
  match parseURL input with
  | none => normalizeDomain raw
  | some parsed =>
    let scheme := jsToLower (stripTrailingColon parsed.protocol)
    let host := normalizeHost parsed.hostname
    if host = "" then normalizeDomain raw
    else
      let portRaw := parsed.port
      let keepPort :=
        if (scheme = "http" ∧ portRaw = "80") ∨ (scheme = "https" ∧ portRaw = "443")
        then "" else portRaw
      let pathname0 := if parsed.pathname = "" then "/" else parsed.pathname
      let pathname := if strStartsWith pathname0 "/" then pathname0 else "/" ++ pathname0
      let search := parsed.search
      let origin := scheme ++ "://" ++ host ++ (if keepPort ≠ "" then ":" ++ keepPort else "")
      let url := origin ++ pathname ++ search
      { raw := raw
        kind := .url
        host := host
        scheme := some scheme
        url := some url
        origin := some origin
        port := if keepPort ≠ "" then some (natOfDigits keepPort.data) else none
        normalizedTarget := url }

/-- `normalizeTarget` from `src/lib/target.js`. -/
def normalizeTarget (raw : String) : TargetInfo :=
  let trimmed := jsTrim raw
  if trimmed = "" then normalizeDomain raw
  else if looksLikeUrl trimmed then normalizeUrl trimmed
  else normalizeDomain trimmed

/-! ## SHA-1 (model of `crypto.createHash('sha1').update(s).digest('hex')`) -/

/-- UTF-8 encoding of one character (byte values as `Nat`). -/
def utf8EncodeCharM (c : Char) : List Nat :=
  let n := c.toNat
  if n < 0x80 then [n]
  else if n < 0x800 then
    [0xC0 ||| (n >>> 6), 0x80 ||| (n &&& 0x3F)]
  else if n < 0x10000 then
    [0xE0 ||| (n >>> 12), 0x80 ||| ((n >>> 6) &&& 0x3F), 0x80 ||| (n &&& 0x3F)]
  else
    [0xF0 ||| (n >>> 18), 0x80 ||| ((n >>> 12) &&& 0x3F),
     0x80 ||| ((n >>> 6) &&& 0x3F), 0x80 ||| (n &&& 0x3F)]

def utf8Bytes (s : String) : List Nat :=
  s.data.flatMap utf8EncodeCharM

def rotl32 (n x : Nat) : Nat :=
  (((x <<< n) % 4294967296) ||| (x >>> (32 - n)))

/-- SHA-1 padding: `0x80`, zeros to 56 mod 64, 8-byte big-endian bit length. -/
def sha1Pad (msg : List Nat) : List Nat :=
  let len := msg.length
  let zeros := (64 + 56 - (len + 1) % 64) % 64
  let bitLen := len * 8
  msg ++ [0x80] ++ List.replicate zeros 0 ++
    [(bitLen >>> 56) &&& 0xFF, (bitLen >>> 48) &&& 0xFF, (bitLen >>> 40) &&& 0xFF,
     (bitLen >>> 32) &&& 0xFF, (bitLen >>> 24) &&& 0xFF, (bitLen >>> 16) &&& 0xFF,
     (bitLen >>> 8) &&& 0xFF, bitLen &&& 0xFF]

/-- Split into 64-byte blocks (`fuel`-driven structural recursion). -/
def chunk64Go : Nat → List Nat → List (List Nat)
  | _, [] => []
  | 0, _ => []
  | fuel + 1, l => l.take 64 :: chunk64Go fuel (l.drop 64)

/-- Big-endian 32-bit words from bytes. -/
def bytesToWords : List Nat → List Nat
  | b0 :: b1 :: b2 :: b3 :: rest =>
    ((b0 <<< 24) ||| (b1 <<< 16) ||| (b2 <<< 8) ||| b3) :: bytesToWords rest
  | _ => []

/-- Message-schedule expansion: given the reversed prefix of `w`, push the
next `count` words `rotl1 (w[i-3] ^^^ w[i-8] ^^^ w[i-14] ^^^ w[i-16])`. -/
def sha1ExpandGo : Nat → List Nat → List Nat
  | 0, acc => acc
  | count + 1, acc =>
    let g (j : Nat) : Nat := (acc.get? j).getD 0
    sha1ExpandGo count (rotl32 1 ((g 2 ^^^ g 7) ^^^ (g 13 ^^^ g 15)) :: acc)

def sha1Schedule (block : List Nat) : List Nat :=
  (sha1ExpandGo 64 block.reverse).reverse

def sha1F (i b c d : Nat) : Nat :=
  if i < 20 then (b &&& c) ||| ((4294967295 - b) &&& d)
  else if i < 40 then (b ^^^ c) ^^^ d
  else if i < 60 then (b &&& c) ||| (b &&& d) ||| (c &&& d)
  else (b ^^^ c) ^^^ d

def sha1K (i : Nat) : Nat :=
  if i < 20 then 0x5A827999
  else if i < 40 then 0x6ED9EBA1
  else if i < 60 then 0x8F1BBCDC
  else 0xCA62C1D6

def sha1Round (st : Nat × Nat × Nat × Nat × Nat) (iw : Nat × Nat) :
    Nat × Nat × Nat × Nat × Nat :=
  let (a, b, c, d, e) := st
  let (i, w) := iw
  let t := (rotl32 5 a + sha1F i b c d + e + sha1K i + w) % 4294967296
  (t, a, rotl32 30 b, c, d)

def sha1Block (h : Nat × Nat × Nat × Nat × Nat) (block : List Nat) :
    Nat × Nat × Nat × Nat × Nat :=
  let (h0, h1, h2, h3, h4) := h
  let ws := sha1Schedule block
  let (a, b, c, d, e) := (ws.enum.foldl sha1Round (h0, h1, h2, h3, h4))
  ((h0 + a) % 4294967296, (h1 + b) % 4294967296, (h2 + c) % 4294967296,
   (h3 + d) % 4294967296, (h4 + e) % 4294967296)

def hexDigitChar (n : Nat) : Char :=
  if n < 10 then Char.ofNat ('0'.toNat + n) else Char.ofNat ('a'.toNat + n - 10)

def toHex8 (n : Nat) : List Char :=
  [hexDigitChar ((n >>> 28) &&& 0xF), hexDigitChar ((n >>> 24) &&& 0xF),
   hexDigitChar ((n >>> 20) &&& 0xF), hexDigitChar ((n >>> 16) &&& 0xF),
   hexDigitChar ((n >>> 12) &&& 0xF), hexDigitChar ((n >>> 8) &&& 0xF),
   hexDigitChar ((n >>> 4) &&& 0xF), hexDigitChar (n &&& 0xF)]

/-- Hex SHA-1 digest of the UTF-8 bytes of `s`. -/
def sha1Hex (s : String) : String :=
  let padded := sha1Pad (utf8Bytes s)
  let blocks := chunk64Go padded.length padded
  let (h0, h1, h2, h3, h4) :=
    blocks.foldl (fun h b => sha1Block h (bytesToWords b))
      (0x67452301, 0xEFCDAB89, 0x98BADCFE, 0x10325476, 0xC3D2E1F0)
  ⟨toHex8 h0 ++ toHex8 h1 ++ toHex8 h2 ++ toHex8 h3 ++ toHex8 h4⟩

/-! ## Model of `src/lib/targets.js` (source `src/unnamed/part_013`) -/

/-- `urlPath`: `new URL(urlStr).pathname || '/'`, `'/'` on a parse failure. -/
def urlPath (urlStr : String) : String :=
  match parseURL urlStr with
  | some u => jsOrS u.pathname "/"
  | none => "/"

def fsSafeChar (c : Char) : Bool :=
  ('a' ≤ c ∧ c ≤ 'z') || isAsciiDigit c || c = '.' || c = '_' || c = '-'

/-- Collapse runs of `_` into a single `_`. -/
def collapseUnderscores : List Char → List Char
  | [] => []
  | '_' :: rest =>
    match collapseUnderscores rest with
    | '_' :: tail => '_' :: tail
    | tail => '_' :: tail
  | c :: rest => c :: collapseUnderscores rest

/-- `fsSafeKeyPart`: lowercase, map runs outside `[a-z0-9._-]` to `_`,
collapse `_` runs, strip leading/trailing `_`. -/
def fsSafeKeyPart (raw : String) : String :=
  let lowered := (jsToLower raw).data
  let mapped := lowered.map (fun c => if fsSafeChar c then c else '_')
  let collapsed := collapseUnderscores mapped
  ⟨(((collapsed.dropWhile (· = '_')).reverse.dropWhile (· = '_')).reverse)⟩

/-- Canonical target descriptor produced by `parseTarget` (fields absent in
the JS object are `none` / `""`). -/
structure Target where
  input : String
  kind : TKind
  host : String
  url : Option String := none
  scheme : Option String := none
  origin : Option String := none
  port : Option Nat := none
  path : Option String := none
  normalizedTarget : String := ""
  key : String := ""
deriving DecidableEq, Repr

/-- The body of `canonicalTargetKey` as a function of the
`(kind, host, url)` tuple it reads. -/
def keyOfTuple (kind : TKind) (rawHost : String) (url : String) : String :=
  let host := normalizeHost rawHost
  if host = "" then ""
  else
    let hostKey := jsOrS (fsSafeKeyPart host) host
    match kind with
    | .domain => "domain--" ++ hostKey
    | .url =>
      if url = "" then "url--" ++ hostKey
      else "url--" ++ hostKey ++ "--" ++ sha1Hex url

/-- `canonicalTargetKey` from `src/lib/targets.js` (reads only the
`kind`, `host` and `url` fields of the descriptor). -/
def canonicalTargetKey (t : Target) : String :=
  keyOfTuple t.kind t.host (t.url.getD "")

/-- `parseTarget` from `src/lib/targets.js`. -/
def parseTarget (input : String) : Target :=
  let info := normalizeTarget input
  let host := normalizeHost info.host
  let kind := info.kind
  let base : Target := { input := input, kind := kind, host := host }
  let withUrl : Target :=
    match kind, info.url with
    | .url, some u =>
      if u = "" then base
      else
        { base with
          url := some u
          scheme := if info.scheme.getD "" = "" then none else info.scheme
          origin := if info.origin.getD "" = "" then none else info.origin
          port := info.port
          path := some (urlPath u) }
    | _, _ => base
  let nt :=
    match withUrl.kind with
    | .url => withUrl.url.getD ""
    | .domain => host
  let out := { withUrl with normalizedTarget := nt }
  { out with key := canonicalTargetKey out }

/-- JS rank used by `compareTargets`: url sorts after domain. -/
def rankOf (t : Target) : Int := if t.kind = .url then 1 else 0

/-- `compareTargets` from `src/lib/targets.js`. -/
def compareTargets (a b : Target) : Int :=
  let ha := normalizeHost a.host
  let hb := normalizeHost b.host
  if jsStrLt ha hb then -1
  else if jsStrLt hb ha then 1
  else
    let ra := rankOf a
    let rb := rankOf b
    if ra ≠ rb then ra - rb
    else
      let na := a.normalizedTarget
      let nb := b.normalizedTarget
      if jsStrLt na nb then -1
      else if jsStrLt nb na then 1
      else
        let ka := a.key
        let kb := b.key
        if jsStrLt ka kb then -1
        else if jsStrLt kb ka then 1
        else 0

/-- Split a character list on a separator character. -/
def splitListOn (sep : Char) : List Char → List (List Char)
  | [] => [[]]
  | c :: rest =>
    let tail := splitListOn sep rest
    if c = sep then [] :: tail
    else
      match tail with
      | h :: t => (c :: h) :: t
      | [] => [[c]]

/-- `parseTargetsText`: split on `/\r?\n/`, trim, drop blanks and `#`-comments. -/
def parseTargetsText (text : String) : List String :=
  let pieces := (splitListOn '\n' text.data).map (fun l =>
    match l.reverse with
    | '\r' :: r => (r.reverse : List Char)
    | _ => l)
  pieces.foldl (fun out raw =>
    let s := jsTrim ⟨raw⟩
    if s = "" then out
    else if strStartsWith s "#" then out
    else out ++ [s]) []

/-- Stable insertion of `x` into a list ordered by comparator `cmp`;
`x` goes before the first element ordered strictly after it. -/
def insertCmp (cmp : α → α → Int) (x : α) : List α → List α
  | [] => [x]
  | y :: ys => if cmp x y ≤ 0 then x :: y :: ys else y :: insertCmp cmp x ys

/-- Model of `Array.prototype.sort(cmp)`: a stable comparator sort. -/
def sortJs (cmp : α → α → Int) : List α → List α
  | [] => []
  | x :: xs => insertCmp cmp x (sortJs cmp xs)

/-- `t.key || canonicalTargetKey(t)` (the dedup key of `canonicalizeTargets`). -/
def jsKeyOf (t : Target) : String := jsOrS t.key (canonicalTargetKey t)

/-- The dedup pass of `canonicalizeTargets`: parse each raw string, drop
descriptors with an empty host or key, keep the first descriptor per key. -/
def canonGo : List String → List String → List Target
  | [], _ => []
  | r :: rest, seen =>
    let t := parseTarget r
    if t.host = "" then canonGo rest seen
    else
      let key := jsKeyOf t
      if key = "" then canonGo rest seen
      else if key ∈ seen then canonGo rest seen
      else t :: canonGo rest (key :: seen)

/-- `canonicalizeTargets` from `src/lib/targets.js`. -/
def canonicalizeTargets (raws : List String) : List Target :=
  sortJs compareTargets (canonGo raws [])

/-! ## JS values and the model of `src/lib/schema.js` -/

/-- JS values as passed around by the record pipeline (numbers restricted to
integers: no fractional numbers flow through the modelled paths). -/
inductive JSVal where
  | jsUndefined
  | jsNull
  | bool (b : Bool)
  | num (n : Int)
  | str (s : String)
  | arr (xs : List JSVal)
  | obj (kvs : List (String × JSVal))

/-- JS truthiness (`NaN` not modelled; numbers are integers). -/
def truthy : JSVal → Bool
  | .jsUndefined => false
  | .jsNull => false
  | .bool b => b
  | .num n => n ≠ 0
  | .str s => s ≠ ""
  | .arr _ => true
  | .obj _ => true

/-- `a || b`. -/
def jsOr (a b : JSVal) : JSVal := if truthy a then a else b

/-- Property read (`undefined` on a missing key or a non-object). -/
def objGet (v : JSVal) (k : String) : JSVal :=
  match v with
  | .obj kvs =>
    match kvs.find? (fun kv => kv.1 = k) with
    | some kv => kv.2
    | none => .jsUndefined
  | _ => .jsUndefined

/-- Insertion-ordered key update: replace in place, else append
(JS object property-assignment and `Map.prototype.set` semantics). -/
def mapSetKV {α : Type} : List (String × α) → String → α → List (String × α)
  | [], k, x => [(k, x)]
  | (k', v') :: rest, k, x =>
    if k' = k then (k, x) :: rest else (k', v') :: mapSetKV rest k x

/-- Property write on an object. -/
def objSet (v : JSVal) (k : String) (x : JSVal) : JSVal :=
  match v with
  | .obj kvs => .obj (mapSetKV kvs k x)
  | w => w

mutual

/-- Model of JS `String(value)` (arrays join with `,`, `null`/`undefined`
elements joining as empty, objects as `[object Object]`). -/
def jsValToString : JSVal → String
  | .jsUndefined => "undefined"
  | .jsNull => "null"
  | .bool b => if b then "true" else "false"
  | .num n => toString n
  | .str s => s
  | .obj _ => "[object Object]"
  | .arr xs => String.intercalate "," (jsArrParts xs)

/-- `Array.prototype.join(',')` element rendering. -/
def jsArrParts : List JSVal → List String
  | [] => []
  | v :: rest =>
    (match v with
     | .jsUndefined => ""
     | .jsNull => ""
     | w => jsValToString w) :: jsArrParts rest

end

/-- `asArray` from `src/lib/schema.js`. -/
def asArray : JSVal → JSVal
  | .arr xs => .arr xs
  | .jsUndefined => .arr []
  | .jsNull => .arr []
  | v => .arr [v]

/-- `normalizeSeverity` from `src/lib/schema.js`. -/
def normalizeSeverity (value : JSVal) : String :=
  let s := jsToLower (jsValToString (jsOr value (.str "")))
  if s = "" then "info"
  else if s = "med" then "medium"
  else if s = "crit" then "critical"
  else if s = "info" ∨ s = "low" ∨ s = "medium" ∨ s = "high" ∨ s = "critical" then s
  else "info"

/-- `normalizeRecord` from `src/lib/schema.js` (the wall clock `nowIso()`
passed as `now`).  A non-object input is replaced by `{}` as in the source. -/
def jsObjOrEmpty (raw : JSVal) : JSVal :=
  match raw with | .obj kvs => JSVal.obj kvs | _ => .obj []

def normalizeRecord (raw : JSVal) (defaults : JSVal) (now : String) : JSVal :=
  let r0 := jsObjOrEmpty raw
  let r1 := objSet r0 "type" (jsOr (objGet r0 "type") (jsOr (objGet defaults "type") (.str "note")))
  let r2 := objSet r1 "tool" (jsOr (objGet r1 "tool") (jsOr (objGet defaults "tool") (.str "unknown")))
  let r3 := objSet r2 "stage" (jsOr (objGet r2 "stage") (jsOr (objGet defaults "stage") (.str "unknown")))
  let r4 := objSet r3 "target" (jsOr (objGet r3 "target") (jsOr (objGet defaults "target") (.str "")))
  let r5 := objSet r4 "ts"
    (jsOr (objGet r4 "ts") (jsOr (objGet r4 "timestamp") (jsOr (objGet defaults "ts") (.str now))))
  let r6 := objSet r5 "timestamp" (jsOr (objGet r5 "timestamp") (objGet r5 "ts"))
  let r7 := objSet r6 "severity"
    (.str (normalizeSeverity (jsOr (objGet r6 "severity") (objGet defaults "severity"))))
  objSet r7 "evidence" (asArray (jsOr (objGet r7 "evidence") (objGet defaults "evidence")))

/-- `buildPayload` from `src/lib/faraday.js`: backfill `ts`/`timestamp`. -/
def buildPayload (record : JSVal) (now : String) : JSVal :=
  let ts := jsOr (objGet record "ts") (jsOr (objGet record "timestamp") (.str now))
  objSet (objSet record "ts" ts) "timestamp" (jsOr (objGet record "timestamp") ts)

/-! ## Model of `src/lib/scope.js` -/

/-- One octet of a dotted IPv4 address as `net.isIPv4` accepts it:
decimal 0–255 with no leading zero. -/
def ipv4Octet (g : List Char) : Bool :=
  g ≠ [] && g.all isAsciiDigit && decide (g.length ≤ 3) &&
    (g.head? ≠ some '0' || decide (g.length = 1)) &&
    decide (natOfDigits g ≤ 255)

/-- Model of Node `net.isIPv4`. -/
def netIsIPv4 (s : String) : Bool :=
  let groups := splitListOn '.' s.data
  decide (groups.length = 4) && groups.all ipv4Octet

def isHexDigit (c : Char) : Bool :=
  isAsciiDigit c || ('a' ≤ c ∧ c ≤ 'f') || ('A' ≤ c ∧ c ≤ 'F')

/-- Model of Node `net.isIPv6` (hex groups, one `::`, optional trailing
embedded IPv4).  No claim exercises IPv6; the model only needs to reject
the non-IP strings that actually flow through (`net.isIP` returns 0 on
them because they contain non-hex letters or too few groups). -/
def netIsIPv6 (s : String) : Bool :=
  let cs := s.data
  if ¬ cs.contains ':' then false
  else if cs.any (fun c => ¬ (isHexDigit c || c = ':' || c = '.')) then false
  else
    let hasDbl := (cs.zip cs.tail).any (fun p => p.1 = ':' ∧ p.2 = ':')
    let groups := (splitListOn ':' cs).filter (· ≠ [])
    let lastIsV4 := match groups.reverse.head? with
                    | some g => netIsIPv4 ⟨g⟩
                    | none => false
    let hexGroups := if lastIsV4 then groups.dropLast else groups
    if hexGroups.all (fun g => decide (g.length ≤ 4) && g.all isHexDigit) then
      let units := hexGroups.length + (if lastIsV4 then 2 else 0)
      if hasDbl then decide (units ≤ 7) else decide (units = 8)
    else false

/-- Model of `net.isIP(s) !== 0` (the `isIp` helper of `src/lib/scope.js`). -/
def isIp (s : String) : Bool := netIsIPv4 s || netIsIPv6 s

/-- Model of JS `parseInt(s, 10)` on the nonnegative inputs in play
(`none` = `NaN`). -/
def jsParseIntPrefix (s : String) : Option Nat :=
  let ds := (jsTrim s).data.takeWhile isAsciiDigit
  if ds = [] then none else some (natOfDigits ds)

/-- `ipToInt` from `src/lib/scope.js` (`>>> 0` arithmetic folds to plain
base-256 placement once each octet is bounded by 255). -/
def ipToInt (ip : String) : Option Nat :=
  let parts := (splitListOn '.' ip.data).map (fun p => jsParseIntPrefix ⟨p⟩)
  match parts with
  | [some p0, some p1, some p2, some p3] =>
    if p0 ≤ 255 ∧ p1 ≤ 255 ∧ p2 ≤ 255 ∧ p3 ≤ 255 then
      some (p0 * 16777216 + p1 * 65536 + p2 * 256 + p3)
    else none
  | _ => none

/-- `isCidrEntry` from `src/lib/scope.js` (same regex as `isIpv4Cidr`,
applied to the trimmed entry). -/
def isCidrEntry (s : String) : Bool := isIpv4Cidr (jsTrim s)

/-- `cidrToRange` from `src/lib/scope.js`. -/
def cidrToRange (cidr : String) : Option (Nat × Nat) :=
  let parts := splitListOn '/' cidr.data
  let ip : String := ⟨parts.headD []⟩
  let pfxStr : Option (List Char) := parts.get? 1
  let pfxN : Option Nat :=
    match pfxStr with
    | none => none
    | some p => jsParseIntPrefix ⟨p⟩
  match pfxN with
  | none => none
  | some pfx =>
    if isIp ip && netIsIPv4 ip then
      if pfx > 32 then none
      else
        match ipToInt ip with
        | none => none
        | some base =>
          let mask := if pfx = 0 then 0 else 4294967296 - 2 ^ (32 - pfx)
          let start := base &&& mask
          some (start, start ||| (4294967295 - mask))
    else none

/-- `pathFromUrl` from `src/lib/scope.js` (same body as `urlPath`). -/
def pathFromUrl (urlStr : String) : String :=
  match parseURL urlStr with
  | some u => jsOrS u.pathname "/"
  | none => "/"

/-- `normalizePathPrefix` from `src/lib/scope.js`. -/
def normalizePathPfx (p : String) : String :=
  if p = "" ∨ p = "/" then "/"
  else
    let out := if strStartsWith p "/" then p else "/" ++ p
    if out.length > 1 ∧ strEndsWith out "/" then ⟨out.data.dropLast⟩ else out

/-- `pathMatchesPrefix` from `src/lib/scope.js`. -/
def pathMatchesPfx (targetPath entryPath : String) : Bool :=
  let pre := normalizePathPfx entryPath
  if pre = "/" then true
  else
    let targetNorm := normalizePathPfx targetPath
    if targetNorm = pre then true
    else strStartsWith targetNorm pre &&
      ((targetNorm.data.drop pre.length).head? = some '/')

/-- `hostnameInScope` from `src/lib/scope.js`. -/
def hostnameInScope (host entry : String) : Bool :=
  let h := normalizeHost host
  let e := normalizeHost entry
  if h = "" ∨ e = "" then false
  else if strStartsWith e "*." then
    let root : String := ⟨e.data.drop 2⟩
    h = root || strEndsWith h ("." ++ root)
  else h = e || strEndsWith h ("." ++ e)

/-- Loop body of the IP branch of `targetInScope`: does this entry admit
the literal IP `t` (as an identical IP entry or a containing CIDR)? -/
def ipEntryAdmits (t : String) (ipInt : Nat) (e : String) : Bool :=
  (isIp e && e = t) ||
  (isCidrEntry e &&
    match cidrToRange e with
    | some r => decide (r.1 ≤ ipInt ∧ ipInt ≤ r.2)
    | none => false)

/-- Loop body of the hostname branch of `targetInScope`
(the `continue`-chains of the `for`-loop as a boolean predicate). -/
def hostEntryAdmits (tInfo : TargetInfo) (tHost tPath : String) (e : String) : Bool :=
  if e = "" then false
  else
    let entry := jsTrim e
    if entry = "" then false
    else if isIp entry || isCidrEntry entry then false
    else
      let ep : String × String :=
        if strStartsWith entry "*." then
          ("*." ++ normalizeHost ⟨entry.data.drop 2⟩, "")
        else
          let eInfo := normalizeTarget entry
          match eInfo.kind with
          | .url => (eInfo.host, pathFromUrl (eInfo.url.getD ""))
          | .domain => (normalizeHost (jsOrS eInfo.host entry), "")
      let entryHost := ep.1
      let entryPath := ep.2
      if entryHost = "" then false
      else if ¬ hostnameInScope tHost entryHost then false
      else if entryPath ≠ "" ∧ entryPath ≠ "/" then
        match tInfo.kind with
        | .url => pathMatchesPfx tPath entryPath
        | .domain => false
      else true

/-- `targetInScope` from `src/lib/scope.js` (the `for`-loops with early
`return true` are the per-entry disjunction `List.any`). -/
def targetInScope (target : String) (entries : List String) : Bool :=
  if entries = [] then true
  else
    let t := jsTrim target
    if t = "" then false
    else if isIp t then
      match ipToInt t with
      | none => false
      | some ipInt => entries.any (ipEntryAdmits t ipInt)
    else
      let tInfo := normalizeTarget t
      let tHost := normalizeHost (jsOrS tInfo.host t)
      let tPath := match tInfo.kind with
                   | .url => pathFromUrl (tInfo.url.getD "")
                   | .domain => ""
      entries.any (hostEntryAdmits tInfo tHost tPath)

/-! ## Model of `src/bin/run-pipeline.js`

The node in-process executor (`runNodeSkillInProcess`) is not modelled;
execution cells are modelled with the spawned-process path of
`runSkillOnce`, whose observable behavior (exit code, the timer firing,
and the stdout byte stream) is an explicit environment parameter
`CellBehavior`, and with `JSON.parse` as an explicit parameter
`jp : String → Option JSVal`.  `path.resolve` is the identity on the
already-relative skill paths used here. -/

def optStrVal : Option String → JSVal
  | some s => .str s
  | none => .jsUndefined

/-- `targetKey` from `src/bin/run-pipeline.js`. -/
def targetKey (t : Target) : String :=
  jsOrS t.key (jsOrS t.normalizedTarget (jsOrS (t.url.getD "") (jsOrS t.host t.input)))

/-- `targetScopeValue` from `src/bin/run-pipeline.js`. -/
def targetScopeValue (t : Target) : String :=
  jsOrS (t.url.getD "") (jsOrS t.host t.input)

/-- `detectRunner` (the runner kind). -/
def detectRunner (skillPath : String) : String :=
  if strEndsWith skillPath ".js" then "node"
  else if strEndsWith skillPath ".py" then "python"
  else if strEndsWith skillPath ".sh" then "shell"
  else "raw"

/-- `URL_ARG_SKILLS` (paths kept relative; `path.resolve` elided). -/
def urlArgSkills : List String :=
  ["src/skills/shell/enum/02-crawl-wget.sh",
   "src/skills/python/exploit/01-ssrf-check.py",
   "src/skills/shell/exploit/01-sqli-test.sh"]

/-- `path.basename`. -/
def basename (p : String) : String :=
  ⟨(p.data.reverse.takeWhile (· ≠ '/')).reverse⟩

structure JsonlSplit where
  lines : List String
  rest : String

/-- `readJsonlLines`: split buffered stdout on newlines; the final piece is
the carried-over partial line; blank lines are dropped. -/
def readJsonlLines (chunk buffer : String) : JsonlSplit :=
  let pieces := splitListOn '\n' (buffer ++ chunk).data
  { lines := (pieces.dropLast.map (fun l => (⟨l⟩ : String))).filter (fun l => jsTrim l ≠ "")
    rest := ⟨pieces.getLastD []⟩ }

/-- The per-cell options `runSkillOnce` receives from `main`
(`opts.timeout` as a number of seconds, `0` = unset). -/
structure RunOpts where
  dryRun : Bool := false
  strict : Bool := false
  workspace : Option String := none
  sourceFallback : String := ""
  stage : String := ""
  tool : String := ""
  outDir : Option String := none
  scopeFile : Option String := none
  rate : Option String := none
  timeoutSec : Nat := 0
  allowExploit : Bool := false

/-- The record built from one successfully parsed stdout line:
`normalizeRecord` with the runner defaults, then `buildPayload` with
`source`/`workspace` backfilled. -/
def mkEmittedRecord (skillPath targetHost : String) (opts : RunOpts) (now : String)
    (v : JSVal) : JSVal :=
  let defaults := JSVal.obj
    [("stage", .str (jsOrS opts.stage "unknown")),
     ("tool", .str (jsOrS opts.tool (jsOrS opts.sourceFallback skillPath))),
     ("target", .str targetHost)]
  let normalized := normalizeRecord v defaults now
  let source := jsOr (objGet normalized "source") (.str (jsOrS opts.sourceFallback skillPath))
  let ws := jsOr (objGet normalized "workspace") (optStrVal opts.workspace)
  buildPayload (objSet (objSet normalized "source" source) "workspace" ws) now

/-- Mutable state of the stdout `data` handler. -/
structure OutState where
  buf : String := ""
  parseErrors : Nat := 0
  emitted : Nat := 0
  records : List JSVal := []
  errLines : List String := []

def invalidJsonlMsg (skillPath line : String) : String :=
  "[runner] invalid jsonl from " ++ skillPath ++ ": " ++ line

def invalidTrailingMsg (skillPath line : String) : String :=
  "[runner] invalid jsonl trailing from " ++ skillPath ++ ": " ++ line

/-- The body of the per-line loop in the stdout `data` handler
(lines 333–359 of `run-pipeline.js`): a malformed line bumps the
parse-error counter (surfacing a stderr message only under `--strict`);
a parsed line is normalized and appended. -/
def handleLine (jp : String → Option JSVal) (skillPath targetHost : String)
    (opts : RunOpts) (now : String) (st : OutState) (line : String) : OutState :=
  match jp line with
  | none =>
    { st with
      parseErrors := st.parseErrors + 1
      errLines :=
        if opts.strict then st.errLines ++ [invalidJsonlMsg skillPath line]
        else st.errLines }
  | some v =>
    { st with
      emitted := st.emitted + 1
      records := st.records ++ [mkEmittedRecord skillPath targetHost opts now v] }

/-- One stdout `data` event: split off completed lines and process each. -/
def handleChunk (jp : String → Option JSVal) (skillPath targetHost : String)
    (opts : RunOpts) (now : String) (st : OutState) (chunk : String) : OutState :=
  let res := readJsonlLines chunk st.buf
  res.lines.foldl (handleLine jp skillPath targetHost opts now) { st with buf := res.rest }

/-- The trailing-buffer handling after stream close
(lines 390–414 of `run-pipeline.js`). -/
def finalizeTrailing (jp : String → Option JSVal) (skillPath targetHost : String)
    (opts : RunOpts) (now : String) (st : OutState) : OutState :=
  let t := jsTrim st.buf
  if t = "" then st
  else
    match jp t with
    | some v =>
      { st with
        emitted := st.emitted + 1
        records := st.records ++ [mkEmittedRecord skillPath targetHost opts now v] }
    | none =>
      { st with
        parseErrors := st.parseErrors + 1
        errLines :=
          if opts.strict then st.errLines ++ [invalidTrailingMsg skillPath t]
          else st.errLines }

/-- `cmd`/`argv` construction for a spawned skill (lines 271–293). -/
def buildCmdArgv (skillPath targetHost targetUrl : String) (opts : RunOpts) :
    String × List String :=
  let runnerKind := detectRunner skillPath
  let base : String × List String :=
    if runnerKind = "python" then ("python3", [skillPath, "--target", targetHost])
    else if runnerKind = "shell" then ("bash", [skillPath, "--target", targetHost])
    else (skillPath, ["--target", targetHost])
  let argv := base.2
  let argv := if targetUrl ≠ "" ∧ skillPath ∈ urlArgSkills then argv ++ ["--url", targetUrl] else argv
  let argv := match opts.outDir with | some d => argv ++ ["--out-dir", d] | none => argv
  let argv := match opts.scopeFile with | some f => argv ++ ["--scope-file", f] | none => argv
  let argv := match opts.rate with | some r => argv ++ ["--rate", r] | none => argv
  let argv := if opts.timeoutSec ≠ 0 then argv ++ ["--timeout", toString opts.timeoutSec] else argv
  let argv := if opts.allowExploit then argv ++ ["--allow-exploit"] else argv
  (base.1, argv)

/-- The synthetic `runner-timeout` note (lines 373–383). -/
def timeoutNote (stageName targetHost : String) (timeoutSec : Nat) (cmd : String)
    (argv : List String) (workspace : Option String) (now : String) : JSVal :=
  buildPayload (JSVal.obj
    [("type", .str "note"),
     ("tool", .str "runner-timeout"),
     ("stage", .str (jsOrS stageName "unknown")),
     ("target", .str targetHost),
     ("severity", .str "info"),
     ("evidence", .arr []),
     ("data", .obj [("timed_out", .bool true), ("timeout_sec", .num timeoutSec),
                    ("cmd", .str cmd), ("argv", .arr (argv.map JSVal.str))]),
     ("source", .str "src/bin/run-pipeline.js"),
     ("workspace", optStrVal workspace)]) now

/-- The externally observable behavior of one spawned `(skill, target)`
cell: the stdout chunks it produced, the exit code reported by `close`
(`none` = killed by a signal), and whether the wall-clock timer fired. -/
structure CellBehavior where
  chunks : List String := []
  exitCode : Option Nat := some 0
  timerFired : Bool := false

/-- The result object of `runSkillOnce`. -/
structure SkillResult where
  ok : Bool
  code : Option Nat
  emitted : Nat
  parseErrors : Nat
  records : List JSVal
  errLines : List String

/-- `runSkillOnce` (spawned path, lines 262–417): process the stdout
stream; on a fired timer (`killedByTimeout`, which requires a positive
budget) emit the synthetic `runner-timeout` note, skip the trailing-buffer
parse, and report `ok = false` with code `code || 124`. -/
def runSkillOnce (jp : String → Option JSVal) (beh : CellBehavior)
    (skillPath : String) (target : Target) (opts : RunOpts) (now : String) : SkillResult :=
  let targetHost := target.host
  let targetUrl := target.url.getD ""
  let ca := buildCmdArgv skillPath targetHost targetUrl opts
  let killedByTimeout := decide (opts.timeoutSec > 0) && beh.timerFired
  let st := beh.chunks.foldl (handleChunk jp skillPath targetHost opts now) {}
  if killedByTimeout then
    { ok := false
      code := some (match beh.exitCode with
                    | some c => if c = 0 then 124 else c
                    | none => 124)
      emitted := st.emitted
      parseErrors := st.parseErrors
      records := st.records ++
        [timeoutNote opts.stage targetHost opts.timeoutSec ca.1 ca.2 opts.workspace now]
      errLines := st.errLines }
  else
    let st' := finalizeTrailing jp skillPath targetHost opts now st
    { ok := beh.exitCode = some 0
      code := beh.exitCode
      emitted := st'.emitted
      parseErrors := st'.parseErrors
      records := st'.records
      errLines := st'.errLines }

/-- The `add` closure of `extractTargets`: a truthy candidate contributes
the `host` of its re-parsed descriptor (and nothing else), empty hosts are
dropped. -/
def extractAddOne (v : JSVal) : List String :=
  if truthy v then
    let info := parseTarget (jsValToString v)
    if info.host ≠ "" then [info.host] else []
  else []

/-- `extractTargets` from `main` (lines 448–461): only `asset` records
contribute, and each candidate value contributes the `host` of its
re-parsed descriptor. -/
def extractTargets (record : JSVal) : List String :=
  let isAsset : Bool := match objGet record "type" with
                        | .str s => s = "asset"
                        | _ => false
  if isAsset then
    let fromTarget := extractAddOne (objGet record "target")
    let data := objGet record "data"
    let fromIp := match objGet data "ip" with
                  | .str s => if s ≠ "" then extractAddOne (.str s) else []
                  | _ => []
    let fromHostnames := match objGet data "hostnames" with
                         | .arr xs => (xs.filter truthy).flatMap extractAddOne
                         | _ => []
    fromTarget ++ fromIp ++ fromHostnames
  else []

/-- `Set.prototype.add` (insertion-ordered dedup). -/
def setAdd (l : List String) (s : String) : List String :=
  if s ∈ l then l else l ++ [s]

/-- One discovered candidate of the asset-propagation loop
(lines 571–578): skip an empty or already-present host, re-check scope,
then merge by `targetKey`. -/
def propagateStep (inScopeF : Target → Bool)
    (acc : List (String × Target) × List String) (raw : String) :
    List (String × Target) × List String :=
  let info := parseTarget raw
  if info.host = "" then acc
  else if info.host ∈ acc.2 then acc
  else if inScopeF info then (mapSetKV acc.1 (targetKey info) info, setAdd acc.2 info.host)
  else acc

/-- The asset-propagation step at the end of a stage (lines 563–586):
merge re-parsed discovered hosts into the target set keyed by `targetKey`,
discarding candidates whose host is already present, re-filter by scope,
re-sort, and apply the `--max-targets` cap. -/
def propagateTargets (stageTargets : List Target) (discovered : List String)
    (inScopeF : Target → Bool) (maxTargets : Nat) : List Target :=
  let next0 : List (String × Target) :=
    stageTargets.foldl (fun m t => mapSetKV m (targetKey t) t) []
  let hosts0 : List String :=
    stageTargets.foldl (fun hs t => if t.host ≠ "" then setAdd hs t.host else hs) []
  let res := discovered.foldl (propagateStep inScopeF) (next0, hosts0)
  let sorted := sortJs compareTargets (res.1.map Prod.snd)
  if maxTargets > 0 ∧ sorted.length > maxTargets then sorted.take maxTargets else sorted

structure StageDef where
  name : String
  skills : List String
deriving DecidableEq, Repr

/-- `pipeline.options`. -/
structure PipelineOpts where
  stop_on_error : Bool := false
  propagate_assets : Bool := false

/-- The CLI arguments of `main` that the orchestration loop reads
(`scopeFilePath = none` models a missing `--scope-file` flag;
`scopeEntries` are the entries `loadScopeFile` returned for it). -/
structure MainArgs where
  allowExploit : Bool := false
  strict : Bool := false
  dryRun : Bool := false
  workspace : Option String := none
  maxTargets : Nat := 0
  timeoutSec : Nat := 0
  outDir : Option String := none
  rate : Option String := none
  scopeFilePath : Option String := none
  scopeEntries : List String := []

/-- `inScopeOrAllowAll` from `main`. -/
def inScopeOrAllowAll (args : MainArgs) (t : Target) : Bool :=
  match args.scopeFilePath with
  | none => true
  | some _ => targetInScope (targetScopeValue t) args.scopeEntries

/-- The per-cell options `main` passes to `runSkillOnce`. -/
def mkOpts (args : MainArgs) (stageName skillRef : String) : RunOpts :=
  { dryRun := args.dryRun
    strict := args.strict
    workspace := args.workspace
    sourceFallback := skillRef
    stage := stageName
    tool := basename skillRef
    outDir := args.outDir
    scopeFile := args.scopeFilePath
    rate := args.rate
    timeoutSec := args.timeoutSec
    allowExploit := args.allowExploit }

/-- The synthetic `intrusive-gate` note (lines 508–518). -/
def gateNote (stageName gateTargetHost : String) (workspace : Option String)
    (now : String) : JSVal :=
  buildPayload (JSVal.obj
    [("type", .str "note"),
     ("tool", .str "intrusive-gate"),
     ("stage", .str stageName),
     ("target", .str gateTargetHost),
     ("severity", .str "info"),
     ("evidence", .arr []),
     ("data", .obj [("intrusive_actions", .str "blocked"),
                    ("required", .str "--allow-exploit")]),
     ("source", .str "src/bin/run-pipeline.js"),
     ("workspace", optStrVal workspace)]) now

/-- `stageTargets[0] || targetInfos[0]`, then `host || normalizedTarget || input`. -/
def gateTargetHost (stageTargets allTargets : List Target) : String :=
  match stageTargets with
  | t :: _ => jsOrS t.host (jsOrS t.normalizedTarget t.input)
  | [] =>
    match allTargets with
    | t :: _ => jsOrS t.host (jsOrS t.normalizedTarget t.input)
    | [] => ""

/-- Accumulated run state: the append-only record log, the trace of
executed `(stage, skill, target)` cells, and whether `stop_on_error`
aborted the run. -/
structure RunState where
  records : List JSVal := []
  trace : List (String × String × Target) := []
  aborted : Bool := false
  abortCode : Nat := 0

/-- The environment: observable behavior of each `(stage, skill, target)`
cell (the skills are external processes). -/
def CellEnv : Type := String → String → Target → CellBehavior

/-- The inner `for (const target of stageTargets)` loop (lines 535–560),
accumulating the `discovered` set via `onRecord` ∘ `extractTargets`
(the timeout note contributes nothing to it: its type is `note`). -/
def runTargetsLoop (jp : String → Option JSVal) (env : CellEnv) (now : String)
    (args : MainArgs) (popts : PipelineOpts) (stageName skillRef : String) :
    List Target → RunState → List String → RunState × List String
  | [], st, disc => (st, disc)
  | t :: rest, st, disc =>
    let opts := mkOpts args stageName skillRef
    let res := runSkillOnce jp (env stageName skillRef t) skillRef t opts now
    let st' := { st with
                 records := st.records ++ res.records
                 trace := st.trace ++ [(stageName, skillRef, t)] }
    let disc' := res.records.foldl (fun d r => (extractTargets r).foldl setAdd d) disc
    if !res.ok && popts.stop_on_error then
      ({ st' with
         aborted := true
         abortCode := match res.code with
                      | some c => if c = 0 then 1 else c
                      | none => 1 }, disc')
    else runTargetsLoop jp env now args popts stageName skillRef rest st' disc'

/-- The `for (const skillRef of skills)` loop (lines 533–561). -/
def runSkillsLoop (jp : String → Option JSVal) (env : CellEnv) (now : String)
    (args : MainArgs) (popts : PipelineOpts) (stageName : String) :
    List String → List Target → RunState → List String → RunState × List String
  | [], _, st, disc => (st, disc)
  | skill :: rest, targets, st, disc =>
    let r := runTargetsLoop jp env now args popts stageName skill targets st disc
    if r.1.aborted then r
    else runSkillsLoop jp env now args popts stageName rest targets r.1 r.2

/-- The `for (const stage of selectedStages)` loop of `main`
(lines 502–587): gate the `exploit` stage behind `--allow-exploit`
(skipping it wholesale after a synthetic gate note) and run asset
propagation at stage end when enabled. -/
def runStagesLoop (jp : String → Option JSVal) (env : CellEnv) (now : String)
    (args : MainArgs) (popts : PipelineOpts) (allTargets : List Target) :
    List StageDef → List Target → RunState → RunState
  | [], _, st => st
  | stage :: rest, stageTargets, st =>
    if stage.name = "exploit" ∧ ¬ args.allowExploit then
      runStagesLoop jp env now args popts allTargets rest stageTargets
        { st with
          records := st.records ++
            [gateNote stage.name (gateTargetHost stageTargets allTargets) args.workspace now] }
    else
      let r := runSkillsLoop jp env now args popts stage.name stage.skills stageTargets st []
      if r.1.aborted then r.1
      else
        let stageTargets' :=
          if popts.propagate_assets ∧ r.2 ≠ [] then
            propagateTargets stageTargets r.2 (inScopeOrAllowAll args) args.maxTargets
          else stageTargets
        runStagesLoop jp env now args popts allTargets rest stageTargets' r.1

/-- The initial per-stage target set of `main`: canonicalized raw targets
filtered by scope (lines 489–496). -/
def initialStageTargets (args : MainArgs) (raws : List String) : List Target :=
  (canonicalizeTargets raws).filter (inScopeOrAllowAll args)

/-! ## Fixtures used by concrete witnesses and counterexamples -/

/-- The cell product of a stage: each skill against each target, in order. -/
def cellProduct (stageName : String) (skills : List String) (targets : List Target) :
    List (String × String × Target) :=
  skills.flatMap (fun sk => targets.map (fun t => (stageName, sk, t)))

/-- A `JSON.parse` behavior that rejects every line. -/
def jpReject : String → Option JSVal := fun _ => none

/-- A `JSON.parse` behavior that accepts exactly one asset line. -/
def jpAsset : String → Option JSVal := fun s =>
  if s = "A" then some (.obj [("type", .str "asset"), ("target", .str "a.com:80.")])
  else none

/-- A cell environment whose every cell times out after emitting nothing. -/
def envTimeout : CellEnv := fun _ _ _ =>
  { chunks := [], exitCode := none, timerFired := true }

/-- A quiet, successful cell environment. -/
def envQuiet : CellEnv := fun _ _ _ =>
  { chunks := [], exitCode := some 0, timerFired := false }

/-- The whole per-entry admission predicate of `targetInScope` (target
preprocessing included), used to state that the entry loop is an
`∃`-search over entries. -/
def scopeEntryAdmits (target e : String) : Bool :=
  let t := jsTrim target
  if t = "" then false
  else if isIp t then
    match ipToInt t with
    | none => false
    | some ipInt => ipEntryAdmits t ipInt e
  else
    let tInfo := normalizeTarget t
    let tHost := normalizeHost (jsOrS tInfo.host t)
    let tPath := match tInfo.kind with
                 | .url => pathFromUrl (tInfo.url.getD "")
                 | .domain => ""
    hostEntryAdmits tInfo tHost tPath e

/-- The strict lexicographic order that `compareTargets` implements, in
propositional form: by normalized host, then rank (domain before url),
then `normalizedTarget`, then `key`. -/
def targLt (a b : Target) : Prop :=
  jsStrLt (normalizeHost a.host) (normalizeHost b.host) = true ∨
  (normalizeHost a.host = normalizeHost b.host ∧
    (rankOf a < rankOf b ∨
     (rankOf a = rankOf b ∧
      (jsStrLt a.normalizedTarget b.normalizedTarget = true ∨
       (a.normalizedTarget = b.normalizedTarget ∧
        jsStrLt a.key b.key = true)))))

/-- Equality of the four sort components read by `compareTargets`. -/
def targEq4 (a b : Target) : Prop :=
  normalizeHost a.host = normalizeHost b.host ∧ rankOf a = rankOf b ∧
    a.normalizedTarget = b.normalizedTarget ∧ a.key = b.key

/-! ## Theorems

Support lemmas first, then one theorem per specified claim (with its
witness or counterexample). -/

lemma targetInScope_eq_any (t : String) (entries : List String) (hne : entries ≠ []) :
    targetInScope t entries = entries.any (scopeEntryAdmits t) := by
  unfold targetInScope scopeEntryAdmits
  rw [if_neg hne]
  by_cases h0 : jsTrim t = ""
  · simp [h0]
  · rw [if_neg h0]
    by_cases h1 : isIp (jsTrim t) = true
    · rw [if_pos h1]
      cases hip : ipToInt (jsTrim t) with
      | none => simp [if_neg h0, h1, hip]
      | some ipInt => simp [if_neg h0, h1, hip]
    · rw [if_neg h1]
      simp only [Bool.not_eq_true] at h1
      simp [if_neg h0, h1]

/-- C6 (amended): scope admission is monotone under entry-list extension
for nonempty scopes: if a nonempty `S` admits `t` and `S ⊆ S'`, then `S'`
admits `t` (the entry loop is an OR over entries).  The nonemptiness
hypothesis is forced: the empty list means allow-all. -/
theorem targetInScope_monotone (t : String) (S S' : List String)
    (hne : S ≠ []) (hsub : S ⊆ S') (h : targetInScope t S = true) :
    targetInScope t S' = true := by
  have hne' : S' ≠ [] := by
    intro h'
    exact hne (List.subset_nil.mp (h' ▸ hsub))
  rw [targetInScope_eq_any t S hne] at h
  rw [targetInScope_eq_any t S' hne']
  obtain ⟨e, he, hpe⟩ := List.any_eq_true.mp h
  exact List.any_eq_true.mpr ⟨e, hsub he, hpe⟩

/-- Witness for `targetInScope_monotone` at a concrete instance. -/
theorem targetInScope_monotone_witness :
    targetInScope "a.com" ["a.com", "b.com"] = true :=
  targetInScope_monotone "a.com" ["a.com"] ["a.com", "b.com"]
    (by decide) (by decide) (by decide)

/-- C6 (counterexample): as stated over all scopes the monotonicity claim
fails, because the empty scope list means allow-all: `inScope("x.com", [])`
holds, `[] ⊆ ["y.com"]`, yet `inScope("x.com", ["y.com"])` is false. -/
theorem targetInScope_monotone_cx :
    targetInScope "x.com" ([] : List String) = true ∧
    ([] : List String) ⊆ ["y.com"] ∧
    targetInScope "x.com" ["y.com"] = false :=
  ⟨by decide, by decide, by decide⟩

/-- C7: the four scope-scenario evaluations against the entry list
`["example.com", "*.example.net", "https://example.org/app"]`. -/
theorem scope_scenario_c7 :
    targetInScope "sub.example.com"
      ["example.com", "*.example.net", "https://example.org/app"] = true ∧
    targetInScope "https://foo.example.net/"
      ["example.com", "*.example.net", "https://example.org/app"] = true ∧
    targetInScope "https://example.org/other"
      ["example.com", "*.example.net", "https://example.org/app"] = false ∧
    targetInScope "https://example.org/app/x"
      ["example.com", "*.example.net", "https://example.org/app"] = true :=
  ⟨by decide, by decide, by decide, by decide⟩

lemma find_mapSetKV_eq {α : Type} (kvs : List (String × α)) (k : String) (x : α) :
    (mapSetKV kvs k x).find? (fun kv => kv.1 = k) = some (k, x) := by
  induction kvs with
  | nil => simp [mapSetKV, List.find?]
  | cons kv rest ih =>
    by_cases h : kv.1 = k
    · simp [mapSetKV, h, List.find?]
    · simp only [mapSetKV, if_neg h]
      rw [List.find?_cons_of_neg _ (by simpa using h)]
      exact ih

lemma find_mapSetKV_ne {α : Type} (kvs : List (String × α)) (k k' : String) (x : α)
    (h : k' ≠ k) :
    (mapSetKV kvs k' x).find? (fun kv => kv.1 = k) = kvs.find? (fun kv => kv.1 = k) := by
  induction kvs with
  | nil => simp [mapSetKV, List.find?, h]
  | cons kv rest ih =>
    by_cases hk : kv.1 = k'
    · simp only [mapSetKV, if_pos hk]
      rw [List.find?_cons_of_neg _ (by simpa using h),
          List.find?_cons_of_neg _ (by simp [hk, h])]
    · simp only [mapSetKV, if_neg hk]
      by_cases hk2 : kv.1 = k
      · rw [List.find?_cons_of_pos _ (by simpa using hk2),
            List.find?_cons_of_pos _ (by simpa using hk2)]
      · rw [List.find?_cons_of_neg _ (by simpa using hk2),
            List.find?_cons_of_neg _ (by simpa using hk2)]
        exact ih

lemma objGet_mapSet_eq (kvs : List (String × JSVal)) (k : String) (x : JSVal) :
    objGet (.obj (mapSetKV kvs k x)) k = x := by
  simp [objGet, find_mapSetKV_eq]

lemma objGet_mapSet_ne (kvs : List (String × JSVal)) (k k' : String) (x : JSVal)
    (h : k' ≠ k) :
    objGet (.obj (mapSetKV kvs k' x)) k = objGet (.obj kvs) k := by
  simp [objGet, find_mapSetKV_ne _ _ _ _ h]

lemma jsObjOrEmpty_isObj (raw : JSVal) : ∃ kvs, jsObjOrEmpty raw = .obj kvs := by
  cases raw <;> exact ⟨_, rfl⟩

/-- The `evidence` field written by `normalizeRecord` is exactly
`asArray(r.evidence || defaults.evidence)` on the object-coerced record. -/
lemma normalizeRecord_evidence (raw defaults : JSVal) (now : String) :
    objGet (normalizeRecord raw defaults now) "evidence" =
      asArray (jsOr (objGet (jsObjOrEmpty raw) "evidence") (objGet defaults "evidence")) := by
  obtain ⟨kvs, hk⟩ := jsObjOrEmpty_isObj raw
  simp only [normalizeRecord, hk, objSet]
  rw [objGet_mapSet_eq]
  rw [objGet_mapSet_ne _ _ _ _ (by decide), objGet_mapSet_ne _ _ _ _ (by decide),
      objGet_mapSet_ne _ _ _ _ (by decide), objGet_mapSet_ne _ _ _ _ (by decide),
      objGet_mapSet_ne _ _ _ _ (by decide), objGet_mapSet_ne _ _ _ _ (by decide),
      objGet_mapSet_ne _ _ _ _ (by decide)]

/-- C8 (amended): the normalized record's `evidence` field is always a
list, computed as `asArray(r.evidence || defaults.evidence)`: an array
value is kept as is, absent (`undefined`) and `null` values yield the
empty list, and any other value is wrapped into a single-element list —
but the record's own falsy scalars (such as the empty string) are first
replaced by the defaults' value by the `||` fallback rather than wrapped. -/
theorem evidence_always_list (raw defaults : JSVal) (now : String) :
    objGet (normalizeRecord raw defaults now) "evidence" =
      asArray (jsOr (objGet (jsObjOrEmpty raw) "evidence") (objGet defaults "evidence")) ∧
    (∀ xs, asArray (JSVal.arr xs) = JSVal.arr xs) ∧
    asArray JSVal.jsUndefined = JSVal.arr [] ∧
    asArray JSVal.jsNull = JSVal.arr [] ∧
    (∀ s, asArray (JSVal.str s) = JSVal.arr [JSVal.str s]) ∧
    (∀ n, asArray (JSVal.num n) = JSVal.arr [JSVal.num n]) ∧
    (∀ v w, truthy v = true → jsOr v w = v) ∧
    (∀ v w, truthy v = false → jsOr v w = w) := by
  refine ⟨normalizeRecord_evidence raw defaults now, fun xs => rfl, rfl, rfl,
    fun s => rfl, fun n => rfl, fun v w hv => ?_, fun v w hv => ?_⟩
  · simp [jsOr, hv]
  · simp [jsOr, hv]

/-- Witness for `evidence_always_list`: a truthy scalar is wrapped, an
absent value yields the empty list. -/
theorem evidence_always_list_witness :
    objGet (normalizeRecord (.obj [("evidence", .str "x")]) (.obj []) "T") "evidence" =
      JSVal.arr [.str "x"] ∧
    objGet (normalizeRecord (.obj []) (.obj []) "T") "evidence" = JSVal.arr [] := by
  constructor
  · rw [(evidence_always_list (.obj [("evidence", .str "x")]) (.obj []) "T").1]; rfl
  · rw [(evidence_always_list (.obj []) (.obj []) "T").1]; rfl

/-- C8 (counterexample): the scalar evidence value `""` is not wrapped
into the one-element list `[""]`; the `||` fallback treats it as absent
and the result is the empty list. -/
theorem evidence_scalar_not_wrapped_cx :
    objGet (normalizeRecord (.obj [("evidence", .str "")]) (.obj []) "T") "evidence" =
      JSVal.arr [] ∧
    JSVal.arr [] ≠ JSVal.arr [.str ""] := by
  constructor
  · rfl
  · intro h
    injection h with h'
    exact List.noConfusion h'

/-- C4: a malformed stdout line (one `JSON.parse` rejects) only bumps the
parse-error counter: no record is appended, the processing state otherwise
survives unchanged (the run is not aborted), and a stderr message is
produced exactly under strict mode.  The same holds for a malformed
trailing buffer at stream end. -/
theorem malformed_line_dropped (jp : String → Option JSVal)
    (skillPath targetHost : String) (opts : RunOpts) (now : String)
    (st : OutState) (line : String) (hbad : jp line = none) :
    handleLine jp skillPath targetHost opts now st line =
      { st with
        parseErrors := st.parseErrors + 1
        errLines :=
          if opts.strict then st.errLines ++ [invalidJsonlMsg skillPath line]
          else st.errLines } ∧
    (handleLine jp skillPath targetHost opts now st line).records = st.records ∧
    (opts.strict = false →
      (handleLine jp skillPath targetHost opts now st line).errLines = st.errLines) ∧
    (opts.strict = true →
      (handleLine jp skillPath targetHost opts now st line).errLines =
        st.errLines ++ [invalidJsonlMsg skillPath line]) ∧
    (jsTrim st.buf ≠ "" → jp (jsTrim st.buf) = none →
      finalizeTrailing jp skillPath targetHost opts now st =
        { st with
          parseErrors := st.parseErrors + 1
          errLines :=
            if opts.strict then st.errLines ++ [invalidTrailingMsg skillPath (jsTrim st.buf)]
            else st.errLines }) := by
  refine ⟨?_, ?_, ?_, ?_, ?_⟩
  · simp [handleLine, hbad]
  · simp [handleLine, hbad]
  · intro hs; simp [handleLine, hbad, hs]
  · intro hs; simp [handleLine, hbad, hs]
  · intro hne hbad2
    simp [finalizeTrailing, hne, hbad2]

/-- Witness for `malformed_line_dropped`: a rejected line under default
(non-strict) options. -/
theorem malformed_line_dropped_witness :
    handleLine jpReject "s.sh" "h" {} "T" {} "bad" =
      { buf := "", parseErrors := 1, emitted := 0, records := [], errLines := [] } := by
  rw [(malformed_line_dropped jpReject "s.sh" "h" {} "T" {} "bad" rfl).1]
  rfl

/-- C1: a stage named `exploit` (the destructive marking) without the
`--allow-exploit` flag is skipped wholesale: the orchestration loop on it
only appends the synthetic `intrusive-gate` note (a `note` record) and
continues with the remaining stages on the unchanged target set — no
`(skill, target)` cell of the stage executes and nothing fails. -/
theorem destructive_stage_gated (jp : String → Option JSVal) (env : CellEnv)
    (now : String) (args : MainArgs) (popts : PipelineOpts)
    (allTargets : List Target) (stage : StageDef) (rest : List StageDef)
    (stageTargets : List Target) (st : RunState)
    (hname : stage.name = "exploit") (hflag : args.allowExploit = false) :
    runStagesLoop jp env now args popts allTargets (stage :: rest) stageTargets st =
      runStagesLoop jp env now args popts allTargets rest stageTargets
        { st with
          records := st.records ++
            [gateNote stage.name (gateTargetHost stageTargets allTargets)
              args.workspace now] } ∧
    objGet (gateNote stage.name (gateTargetHost stageTargets allTargets)
      args.workspace now) "tool" = .str "intrusive-gate" ∧
    objGet (gateNote stage.name (gateTargetHost stageTargets allTargets)
      args.workspace now) "type" = .str "note" := by
  refine ⟨?_, rfl, rfl⟩
  simp only [runStagesLoop]
  rw [if_pos ⟨hname, by simp [hflag]⟩]

/-- Witness for `destructive_stage_gated` at a concrete one-stage pipeline. -/
theorem destructive_stage_gated_witness :
    runStagesLoop jpReject envQuiet "T" {} {} [] [⟨"exploit", ["x.sh"]⟩] [] {} =
      { records := [gateNote "exploit" "" none "T"], trace := [], aborted := false,
        abortCode := 0 } := by
  rw [(destructive_stage_gated jpReject envQuiet "T" {} {} [] ⟨"exploit", ["x.sh"]⟩
    [] [] {} rfl rfl).1]
  rfl

lemma runTargetsLoop_no_stop (jp : String → Option JSVal) (env : CellEnv)
    (now : String) (args : MainArgs) (popts : PipelineOpts)
    (stageName skillRef : String) (hstop : popts.stop_on_error = false) :
    ∀ (targets : List Target) (st : RunState) (disc : List String),
      (runTargetsLoop jp env now args popts stageName skillRef targets st disc).1.aborted =
        st.aborted ∧
      (runTargetsLoop jp env now args popts stageName skillRef targets st disc).1.trace =
        st.trace ++ targets.map (fun t => (stageName, skillRef, t)) := by
  intro targets
  induction targets with
  | nil => intro st disc; simp [runTargetsLoop]
  | cons t rest ih =>
    intro st disc
    simp only [runTargetsLoop, hstop, Bool.and_false, Bool.false_eq_true, if_false]
    rw [(ih _ _).1, (ih _ _).2]
    simp

lemma runSkillsLoop_no_stop (jp : String → Option JSVal) (env : CellEnv)
    (now : String) (args : MainArgs) (popts : PipelineOpts)
    (stageName : String) (hstop : popts.stop_on_error = false) :
    ∀ (skills : List String) (targets : List Target) (st : RunState)
      (disc : List String), st.aborted = false →
      (runSkillsLoop jp env now args popts stageName skills targets st disc).1.aborted =
        false ∧
      (runSkillsLoop jp env now args popts stageName skills targets st disc).1.trace =
        st.trace ++ cellProduct stageName skills targets := by
  intro skills
  induction skills with
  | nil => intro targets st disc hab; simp [runSkillsLoop, cellProduct, hab]
  | cons sk rest ih =>
    intro targets st disc hab
    have h1 := runTargetsLoop_no_stop jp env now args popts stageName sk hstop targets st disc
    simp only [runSkillsLoop]
    rw [h1.1, hab]
    simp only [Bool.false_eq_true, if_false]
    have h2 := ih targets
      (runTargetsLoop jp env now args popts stageName sk targets st disc).1
      (runTargetsLoop jp env now args popts stageName sk targets st disc).2
      (by rw [h1.1, hab])
    rw [h2.1, h2.2, h1.2]
    simp [cellProduct]

/-- C5: a `(skill, target)` cell whose wall-clock budget expires (positive
budget, timer fired) appends the synthetic `runner-timeout` note after the
records parsed so far and reports a soft failure (`ok = false`); and under
the default configuration (`stop_on_error` unset) the cell loops never
abort — every remaining cell of the stage still executes, in order. -/
theorem timeout_note_nonfatal (jp : String → Option JSVal) (env : CellEnv)
    (now : String) (args : MainArgs) (popts : PipelineOpts) (stageName : String)
    (skills : List String) (targets : List Target) (st : RunState)
    (disc : List String) (hstop : popts.stop_on_error = false)
    (hab : st.aborted = false) :
    (∀ (beh : CellBehavior) (skillPath : String) (t : Target) (opts : RunOpts),
      beh.timerFired = true → 0 < opts.timeoutSec →
      (runSkillOnce jp beh skillPath t opts now).records =
        (beh.chunks.foldl (handleChunk jp skillPath t.host opts now) {}).records ++
          [timeoutNote opts.stage t.host opts.timeoutSec
            (buildCmdArgv skillPath t.host (t.url.getD "") opts).1
            (buildCmdArgv skillPath t.host (t.url.getD "") opts).2
            opts.workspace now] ∧
      (runSkillOnce jp beh skillPath t opts now).ok = false) ∧
    (runSkillsLoop jp env now args popts stageName skills targets st disc).1.aborted =
      false ∧
    (runSkillsLoop jp env now args popts stageName skills targets st disc).1.trace =
      st.trace ++ cellProduct stageName skills targets := by
  refine ⟨fun beh skillPath t opts htimer hpos => ⟨?_, ?_⟩, ?_, ?_⟩
  · simp [runSkillOnce, htimer, hpos]
  · simp [runSkillOnce, htimer, hpos]
  · exact (runSkillsLoop_no_stop jp env now args popts stageName hstop skills
      targets st disc hab).1
  · exact (runSkillsLoop_no_stop jp env now args popts stageName hstop skills
      targets st disc hab).2

/-- Witness for `timeout_note_nonfatal`: a timed-out cell fails soft and
the one-skill stage still runs its (only) cell. -/
theorem timeout_note_nonfatal_witness :
    (runSkillOnce jpReject { chunks := [], exitCode := none, timerFired := true }
      "s.sh" (parseTarget "b.com") { stage := "enum", timeoutSec := 5 } "T").ok = false ∧
    (runSkillsLoop jpReject envTimeout "T" {} {} "enum" ["s.sh"]
      [parseTarget "b.com"] {} []).1.trace = [("enum", "s.sh", parseTarget "b.com")] := by
  have h := timeout_note_nonfatal jpReject envTimeout "T" {} {} "enum" ["s.sh"]
    [parseTarget "b.com"] {} [] rfl rfl
  exact ⟨(h.1 _ "s.sh" _ _ rfl (by decide)).2, by simpa [cellProduct] using h.2.2⟩

lemma dropWhile_dropWhile (p : α → Bool) (l : List α) :
    (l.dropWhile p).dropWhile p = l.dropWhile p := by
  induction l with
  | nil => rfl
  | cons a l ih =>
    by_cases h : p a
    · simp [List.dropWhile_cons, h, ih]
    · simp [List.dropWhile_cons, h]

lemma head?_dropWhile_false (p : α → Bool) (l : List α) :
    ∀ x, (l.dropWhile p).head? = some x → p x = false := by
  induction l with
  | nil => intro x h; cases h
  | cons a l ih =>
    intro x h
    by_cases ha : p a
    · rw [List.dropWhile_cons, if_pos ha] at h
      exact ih x h
    · rw [List.dropWhile_cons, if_neg ha] at h
      cases h
      simpa using ha

lemma dropWhile_of_head_false (p : α → Bool) (l : List α) (x : α)
    (hh : l.head? = some x) (hx : p x = false) : l.dropWhile p = l := by
  cases l with
  | nil => cases hh
  | cons a l =>
    cases hh
    simp [List.dropWhile_cons, hx]

lemma getLast?_dropWhile (p : α → Bool) (l : List α)
    (h : l.dropWhile p ≠ []) : (l.dropWhile p).getLast? = l.getLast? := by
  induction l with
  | nil => simp at h
  | cons a l ih =>
    by_cases ha : p a
    · rw [List.dropWhile_cons, if_pos ha] at h ⊢
      have hl : l ≠ [] := by
        intro h'
        rw [h'] at h
        simp at h
      rw [ih h]
      cases l with
      | nil => exact absurd rfl hl
      | cons b bs => rw [List.getLast?_cons_cons]
    · rw [List.dropWhile_cons, if_neg ha]

lemma jsTrim_idem (s : String) : jsTrim (jsTrim s) = jsTrim s := by
  show jsTrim ⟨((s.data.dropWhile jsWhitespaceChar).reverse.dropWhile jsWhitespaceChar).reverse⟩ =
    ⟨((s.data.dropWhile jsWhitespaceChar).reverse.dropWhile jsWhitespaceChar).reverse⟩
  set p := jsWhitespaceChar
  set A := s.data.dropWhile p with hA
  set B := A.reverse.dropWhile p with hB
  by_cases hBe : B = []
  · simp [jsTrim, hBe]
  · have hAe : A ≠ [] := by
      intro h'
      rw [h', List.reverse_nil, List.dropWhile_nil] at hB
      exact hBe hB
    have hBrev : B.reverse.head? = A.head? := by
      rw [List.head?_reverse, hB, getLast?_dropWhile p A.reverse (hB ▸ hBe),
        List.getLast?_reverse]
    obtain ⟨x, hx⟩ : ∃ x, A.head? = some x := by
      cases hA2 : A with
      | nil => exact absurd hA2 hAe
      | cons a l => exact ⟨a, by simp [hA2]⟩
    have hpx : p x = false := head?_dropWhile_false p s.data x (hA ▸ hx)
    have step1 : B.reverse.dropWhile p = B.reverse :=
      dropWhile_of_head_false p B.reverse x (hBrev.trans hx) hpx
    have step2 : B.dropWhile p = B := by
      rw [hB]; exact dropWhile_dropWhile p A.reverse
    show (⟨((B.reverse.dropWhile p).reverse.dropWhile p).reverse⟩ : String) = ⟨B.reverse⟩
    rw [step1, List.reverse_reverse, step2]

lemma normalizeUrl_parse_fail (s : String)
    (hfail : parseURL (urlInputOf (jsTrim s)) = none) :
    normalizeUrl s = normalizeDomain s := by
  simp [normalizeUrl, hfail]

/-- C9: the target parser is a total function whose degradation behavior
matches the spec: whitespace-only input yields a domain descriptor with an
empty host, and an input classified URL-like whose URL parse fails (the
`new URL` model returns `none`) degrades to a domain descriptor whose host
is the trimmed input lowercased with a trailing dot stripped. -/
theorem parse_total_and_degrades (raw : String) :
    (jsTrim raw = "" →
      (normalizeTarget raw).kind = .domain ∧ (normalizeTarget raw).host = "") ∧
    (jsTrim raw ≠ "" → looksLikeUrl (jsTrim raw) = true →
      parseURL (urlInputOf (jsTrim raw)) = none →
      normalizeTarget raw = normalizeDomain (jsTrim raw) ∧
      (normalizeTarget raw).kind = .domain ∧
      (normalizeTarget raw).host = normalizeHost raw) := by
  constructor
  · intro h
    have : normalizeTarget raw = normalizeDomain raw := by
      simp [normalizeTarget, h]
    rw [this]
    refine ⟨rfl, ?_⟩
    show normalizeHost raw = ""
    unfold normalizeHost
    rw [h]
    rfl
  · intro hne hurl hfail
    have hstep : normalizeTarget raw = normalizeUrl (jsTrim raw) := by
      simp [normalizeTarget, hne, hurl]
    have hfail' : parseURL (urlInputOf (jsTrim (jsTrim raw))) = none := by
      rw [jsTrim_idem]; exact hfail
    have hdom : normalizeUrl (jsTrim raw) = normalizeDomain (jsTrim raw) :=
      normalizeUrl_parse_fail (jsTrim raw) hfail'
    have hhost : normalizeHost (jsTrim raw) = normalizeHost raw := by
      unfold normalizeHost
      rw [jsTrim_idem]
    refine ⟨hstep.trans hdom, ?_, ?_⟩
    · rw [hstep, hdom]; rfl
    · rw [hstep, hdom]
      show normalizeHost (jsTrim raw) = normalizeHost raw
      exact hhost

/-- Witness for `parse_total_and_degrades`: whitespace input, and the
URL-classified input `"http://"` on which `new URL` throws. -/
theorem parse_total_and_degrades_witness :
    ((normalizeTarget "  ").kind = .domain ∧ (normalizeTarget "  ").host = "") ∧
    ((normalizeTarget "http://").kind = .domain ∧
      (normalizeTarget "http://").host = "http://") := by
  refine ⟨(parse_total_and_degrades "  ").1 (by decide), ?_⟩
  have h := (parse_total_and_degrades "http://").2 (by decide) (by decide) (by decide)
  exact ⟨h.2.1, by rw [h.2.2]; decide⟩

lemma canonicalTargetKey_def (t : Target) :
    canonicalTargetKey t = keyOfTuple t.kind t.host (t.url.getD "") := rfl

lemma key_update_spec (t : Target) :
    ({ t with key := canonicalTargetKey t } : Target).key =
      keyOfTuple ({ t with key := canonicalTargetKey t } : Target).kind
        ({ t with key := canonicalTargetKey t } : Target).host
        (({ t with key := canonicalTargetKey t } : Target).url.getD "") := by
  cases t
  rfl

lemma parseTarget_shape (r : String) :
    ∃ t : Target, parseTarget r = { t with key := canonicalTargetKey t } := by
  unfold parseTarget
  exact ⟨_, rfl⟩

lemma parseTarget_key_eq (r : String) :
    (parseTarget r).key =
      keyOfTuple (parseTarget r).kind (parseTarget r).host ((parseTarget r).url.getD "") := by
  obtain ⟨t, ht⟩ := parseTarget_shape r
  rw [ht]
  exact key_update_spec t

lemma canonicalTargetKey_parseTarget (r : String) :
    canonicalTargetKey (parseTarget r) = (parseTarget r).key := by
  rw [canonicalTargetKey_def, ← parseTarget_key_eq]

lemma jsKeyOf_parseTarget (r : String) :
    jsKeyOf (parseTarget r) = (parseTarget r).key := by
  unfold jsKeyOf jsOrS
  rw [canonicalTargetKey_parseTarget]
  split_ifs with h <;> rfl

lemma strAppend_left_cancel (pre a b : String) : pre ++ a = pre ++ b ↔ a = b := by
  constructor
  · intro h
    have hd : pre.data ++ a.data = pre.data ++ b.data := by
      have := congrArg String.data h
      simpa using this
    obtain ⟨la⟩ := a
    obtain ⟨lb⟩ := b
    exact congrArg String.mk (List.append_cancel_left hd)
  · intro h
    rw [h]

/-- C2 (amended): the canonical key is a function of the descriptor's
`(kind, host, url)` tuple — identical tuples always yield the identical
key — but distinct tuples need not yield distinct keys: for two
domain-kind descriptors (with nonempty normalized hosts), the keys agree
exactly when the filesystem-safe key parts of their hosts agree, so hosts
differing only in characters outside `[a-z0-9._-]` collide. -/
theorem target_key_uniqueness (r₁ r₂ : String) :
    ((parseTarget r₁).kind = (parseTarget r₂).kind →
     (parseTarget r₁).host = (parseTarget r₂).host →
     (parseTarget r₁).url = (parseTarget r₂).url →
     (parseTarget r₁).key = (parseTarget r₂).key) ∧
    ((parseTarget r₁).kind = .domain → (parseTarget r₂).kind = .domain →
     normalizeHost (parseTarget r₁).host ≠ "" →
     normalizeHost (parseTarget r₂).host ≠ "" →
     ((parseTarget r₁).key = (parseTarget r₂).key ↔
       jsOrS (fsSafeKeyPart (normalizeHost (parseTarget r₁).host))
           (normalizeHost (parseTarget r₁).host) =
         jsOrS (fsSafeKeyPart (normalizeHost (parseTarget r₂).host))
           (normalizeHost (parseTarget r₂).host))) := by
  constructor
  · intro hk hh hu
    rw [parseTarget_key_eq r₁, parseTarget_key_eq r₂, hk, hh, hu]
  · intro hk1 hk2 hh1 hh2
    rw [parseTarget_key_eq r₁, parseTarget_key_eq r₂]
    unfold keyOfTuple
    rw [hk1, hk2, if_neg hh1, if_neg hh2]
    exact strAppend_left_cancel "domain--" _ _

/-- Witness for `target_key_uniqueness`: two spellings of the same host
normalize to the identical tuple and get the identical key. -/
theorem target_key_uniqueness_witness :
    (parseTarget "x.com").key = (parseTarget "X.com.").key :=
  (target_key_uniqueness "x.com" "X.com.").1 (by decide) (by decide) (by decide)

/-- C2 (counterexample): the descriptors of `"a!b"` and `"a,b"` have
distinct `(kind, host, url)` tuples (the hosts differ) but the identical
key `domain--a_b`: the filesystem-safe key mapping collapses `!` and `,`
to `_`. -/
theorem target_key_collision_cx :
    (parseTarget "a!b").kind = (parseTarget "a,b").kind ∧
    (parseTarget "a!b").url = (parseTarget "a,b").url ∧
    (parseTarget "a!b").host ≠ (parseTarget "a,b").host ∧
    (parseTarget "a!b").key = (parseTarget "a,b").key := by
  refine ⟨by decide, by decide, by decide, by decide⟩

lemma insertCmp_perm {α : Type} (cmp : α → α → Int) (x : α) (l : List α) :
    (insertCmp cmp x l).Perm (x :: l) := by
  induction l with
  | nil => exact List.Perm.refl _
  | cons y ys ih =>
    by_cases h : cmp x y ≤ 0
    · simp [insertCmp, h]
    · simp only [insertCmp, if_neg h]
      exact (List.Perm.cons y ih).trans (List.Perm.swap x y ys)

lemma sortJs_perm {α : Type} (cmp : α → α → Int) (l : List α) :
    (sortJs cmp l).Perm l := by
  induction l with
  | nil => exact List.Perm.refl _
  | cons x xs ih =>
    exact (insertCmp_perm cmp x (sortJs cmp xs)).trans (List.Perm.cons x ih)

lemma mem_sortJs {α : Type} (cmp : α → α → Int) (l : List α) (y : α) :
    y ∈ sortJs cmp l ↔ y ∈ l :=
  (sortJs_perm cmp l).mem_iff

lemma mapSetKV_values {α : Type} (m : List (String × α)) (k : String) (x : α) :
    ∀ y ∈ (mapSetKV m k x).map Prod.snd, y = x ∨ y ∈ m.map Prod.snd := by
  induction m with
  | nil => intro y hy; simp [mapSetKV] at hy; exact Or.inl hy
  | cons kv rest ih =>
    intro y hy
    by_cases h : kv.1 = k
    · simp only [mapSetKV, if_pos h, List.map_cons, List.mem_cons] at hy
      rcases hy with hy | hy
      · exact Or.inl hy
      · exact Or.inr (by simp [hy])
    · simp only [mapSetKV, if_neg h, List.map_cons, List.mem_cons] at hy
      rcases hy with hy | hy
      · exact Or.inr (by simp [hy])
      · rcases ih y hy with h1 | h1
        · exact Or.inl h1
        · exact Or.inr (by simp [h1])

lemma foldl_mapSet_values (l : List Target) :
    ∀ (acc : List (String × Target)),
      ∀ y ∈ (l.foldl (fun m t => mapSetKV m (targetKey t) t) acc).map Prod.snd,
        y ∈ acc.map Prod.snd ∨ y ∈ l := by
  induction l with
  | nil => intro acc y hy; exact Or.inl hy
  | cons t rest ih =>
    intro acc y hy
    rcases ih (mapSetKV acc (targetKey t) t) y hy with h1 | h1
    · rcases mapSetKV_values acc (targetKey t) t y h1 with h2 | h2
      · exact Or.inr (by simp [h2])
      · exact Or.inl h2
    · exact Or.inr (by simp [h1])

lemma foldl_propagateStep_values (f : Target → Bool) (ds : List String) :
    ∀ (acc : List (String × Target) × List String),
      ∀ y ∈ (ds.foldl (propagateStep f) acc).1.map Prod.snd,
        y ∈ acc.1.map Prod.snd ∨ ∃ h ∈ ds, y = parseTarget h := by
  induction ds with
  | nil => intro acc y hy; exact Or.inl hy
  | cons d ds ih =>
    intro acc y hy
    rcases ih (propagateStep f acc d) y hy with h1 | h1
    · simp only [propagateStep] at h1
      split_ifs at h1 with e1 e2 e3
      · exact Or.inl h1
      · exact Or.inl h1
      · simp only at h1
        rcases mapSetKV_values acc.1 (targetKey (parseTarget d)) (parseTarget d) y h1 with h2 | h2
        · exact Or.inr ⟨d, by simp, h2⟩
        · exact Or.inl h2
      · exact Or.inl h1
    · obtain ⟨h, hh, hy'⟩ := h1
      exact Or.inr ⟨h, by simp [hh], hy'⟩

/-- C10 (amended): every target added by asset propagation is the
re-parsed descriptor `parseTarget h` of a discovered host string `h`;
a candidate whose re-parsed host is already present is discarded without
changing the state; an asset candidate contributes only the host of its
re-parsed descriptor; and the re-parsed descriptor is domain-kind whenever
the host string is not itself classified URL-like — it can be URL-kind
when the host string re-parses as `host:port` (see the counterexample). -/
theorem propagation_adds_reparsed_hosts (stageTargets : List Target)
    (discovered : List String) (f : Target → Bool) (m : Nat) :
    (∀ t ∈ propagateTargets stageTargets discovered f m,
       t ∈ stageTargets ∨ ∃ h ∈ discovered, t = parseTarget h) ∧
    (∀ (acc : List (String × Target) × List String) (h : String),
       (parseTarget h).host ∈ acc.2 → propagateStep f acc h = acc) ∧
    (∀ rec : JSVal, ∀ v ∈ extractTargets rec,
       ∃ c : String, v = (parseTarget c).host ∧ (parseTarget c).host ≠ "") ∧
    (∀ h : String, looksLikeUrl (jsTrim h) = false →
       (parseTarget h).kind = .domain) := by
  refine ⟨?_, ?_, ?_, ?_⟩
  · intro t ht
    unfold propagateTargets at ht
    simp only at ht
    have hmem : t ∈ (sortJs compareTargets
        ((discovered.foldl (propagateStep f)
          (stageTargets.foldl (fun m t => mapSetKV m (targetKey t) t) [],
           stageTargets.foldl (fun hs t => if t.host ≠ "" then setAdd hs t.host else hs) [])).1.map
          Prod.snd)) := by
      split_ifs at ht with hcap
      · exact List.mem_of_mem_take ht
      · exact ht
    rw [mem_sortJs] at hmem
    rcases foldl_propagateStep_values f discovered _ t hmem with h1 | h1
    · rcases foldl_mapSet_values stageTargets [] t h1 with h2 | h2
      · simp at h2
      · exact Or.inl h2
    · exact Or.inr h1
  · intro acc h hmem
    simp only [propagateStep]
    split_ifs <;> rfl
  · intro rec v hv
    simp only [extractTargets] at hv
    split_ifs at hv with hasset
    · have haddone : ∀ (w : JSVal), v ∈ extractAddOne w →
          ∃ c : String, v = (parseTarget c).host ∧ (parseTarget c).host ≠ "" := by
        intro w hw
        simp only [extractAddOne] at hw
        split_ifs at hw with t1 t2
        · simp only [List.mem_singleton] at hw
          exact ⟨jsValToString w, hw, t2⟩
        · simp at hw
        · simp at hw
      rcases List.mem_append.mp hv with hv1 | hv1
      · rcases List.mem_append.mp hv1 with hv2 | hv2
        · exact haddone _ hv2
        · revert hv2
          split
          · split_ifs with hs
            · intro hv2; exact haddone _ hv2
            · intro hv2; simp at hv2
          · intro hv2; simp at hv2
      · revert hv1
        split
        · intro hv1
          obtain ⟨w, _, hw⟩ := List.mem_flatMap.mp hv1
          exact haddone w hw
        · intro hv1; simp at hv1
    · simp at hv
  · intro h hurl
    have hcase : normalizeTarget h = normalizeDomain h ∨
        normalizeTarget h = normalizeDomain (jsTrim h) := by
      unfold normalizeTarget
      by_cases h0 : jsTrim h = ""
      · exact Or.inl (by simp [h0])
      · exact Or.inr (by simp [h0, hurl])
    rcases hcase with hc | hc <;>
      simp [parseTarget, hc, normalizeDomain]

/-- Witness for `propagation_adds_reparsed_hosts` at concrete inputs. -/
theorem propagation_adds_reparsed_hosts_witness :
    propagateStep (fun _ => true)
      ([("domain--b.com", parseTarget "b.com")], ["b.com"]) "b.com" =
      ([("domain--b.com", parseTarget "b.com")], ["b.com"]) ∧
    (parseTarget "c.net").kind = .domain := by
  have h := propagation_adds_reparsed_hosts [parseTarget "b.com"] ["b.com"]
    (fun _ => true) 0
  exact ⟨h.2.1 _ "b.com" (by decide), h.2.2.2 "c.net" (by decide)⟩

/-- C10 (counterexample): propagation can add a URL-kind target.  The
asset candidate `"a.com:80."` contributes the host string `"a.com:80"`
(trailing dot stripped), which re-parses as `host:port` — URL-kind with
url `https://a.com:80/` — and is merged into the target set. -/
theorem propagation_url_kind_cx :
    extractTargets (.obj [("type", .str "asset"), ("target", .str "a.com:80.")]) =
      ["a.com:80"] ∧
    (propagateTargets [parseTarget "b.com"] ["a.com:80"] (fun _ => true) 0).any
      (fun t => t.kind = TKind.url) = true ∧
    (parseTarget "b.com").kind = TKind.domain := by
  refine ⟨by decide, by decide, by decide⟩

lemma jsLtChars_irrefl : ∀ l : List Char, jsLtChars l l = false := by
  intro l
  induction l with
  | nil => rfl
  | cons a as ih => simp [jsLtChars, lt_irrefl, ih]

lemma jsLtChars_asymm : ∀ l₁ l₂ : List Char,
    jsLtChars l₁ l₂ = true → jsLtChars l₂ l₁ = false := by
  intro l₁
  induction l₁ with
  | nil =>
    intro l₂ h
    cases l₂ with
    | nil => cases h
    | cons b bs => rfl
  | cons a as ih =>
    intro l₂ h
    cases l₂ with
    | nil => cases h
    | cons b bs =>
      by_cases hab : a < b
      · simp [jsLtChars, hab, asymm hab, lt_asymm hab]
      · by_cases hba : b < a
        · simp [jsLtChars, hab, hba] at h
        · have hEq : a = b := le_antisymm (le_of_not_lt hba) (le_of_not_lt hab)
          subst hEq
          simp [jsLtChars, lt_irrefl] at h ⊢
          exact ih bs h

lemma jsLtChars_conn : ∀ l₁ l₂ : List Char,
    jsLtChars l₁ l₂ = false → jsLtChars l₂ l₁ = false → l₁ = l₂ := by
  intro l₁
  induction l₁ with
  | nil =>
    intro l₂ h1 _
    cases l₂ with
    | nil => rfl
    | cons b bs => cases h1
  | cons a as ih =>
    intro l₂ h1 h2
    cases l₂ with
    | nil => cases h2
    | cons b bs =>
      by_cases hab : a < b
      · simp [jsLtChars, hab] at h1
      · by_cases hba : b < a
        · simp [jsLtChars, hba, lt_asymm hba] at h2
        · have hEq : a = b := le_antisymm (le_of_not_lt hba) (le_of_not_lt hab)
          subst hEq
          simp only [jsLtChars, if_neg (lt_irrefl a)] at h1 h2
          rw [ih bs h1 h2]

lemma jsLtChars_trans : ∀ l₁ l₂ l₃ : List Char,
    jsLtChars l₁ l₂ = true → jsLtChars l₂ l₃ = true → jsLtChars l₁ l₃ = true := by
  intro l₁
  induction l₁ with
  | nil =>
    intro l₂ l₃ h1 h2
    cases l₂ with
    | nil => cases h1
    | cons b bs =>
      cases l₃ with
      | nil => cases h2
      | cons c cs => rfl
  | cons a as ih =>
    intro l₂ l₃ h1 h2
    cases l₂ with
    | nil => cases h1
    | cons b bs =>
      cases l₃ with
      | nil => cases h2
      | cons c cs =>
        by_cases hab : a < b
        · by_cases hbc : b < c
          · simp [jsLtChars, lt_trans hab hbc]
          · by_cases hcb : c < b
            · simp [jsLtChars, hbc, hcb] at h2
            · have hEq : b = c := le_antisymm (le_of_not_lt hcb) (le_of_not_lt hbc)
              subst hEq
              simp [jsLtChars, hab]
        · by_cases hba : b < a
          · simp [jsLtChars, hab, hba] at h1
          · have hEq : a = b := le_antisymm (le_of_not_lt hba) (le_of_not_lt hab)
            subst hEq
            simp only [jsLtChars, if_neg (lt_irrefl a)] at h1
            by_cases hac : a < c
            · simp [jsLtChars, hac]
            · by_cases hca : c < a
              · simp [jsLtChars, hac, hca] at h2
              · have hEq2 : a = c := le_antisymm (le_of_not_lt hca) (le_of_not_lt hac)
                subst hEq2
                simp only [jsLtChars, if_neg (lt_irrefl a)] at h2 ⊢
                exact ih bs cs h1 h2

lemma jsStrLt_irrefl (a : String) : jsStrLt a a = false := jsLtChars_irrefl a.data

lemma jsStrLt_asymm (a b : String) : jsStrLt a b = true → jsStrLt b a = false :=
  jsLtChars_asymm a.data b.data

lemma jsStrLt_conn (a b : String) :
    jsStrLt a b = false → jsStrLt b a = false → a = b := by
  intro h1 h2
  obtain ⟨la⟩ := a
  obtain ⟨lb⟩ := b
  exact congrArg String.mk (jsLtChars_conn la lb h1 h2)

lemma jsStrLt_trans (a b c : String) :
    jsStrLt a b = true → jsStrLt b c = true → jsStrLt a c = true :=
  jsLtChars_trans a.data b.data c.data

lemma cmpT_neg_iff (a b : Target) : compareTargets a b < 0 ↔ targLt a b := by
  simp only [compareTargets, targLt]
  split_ifs with h1 h2 h3 h4 h5 h6 h7
  · simp [h1]
  · constructor
    · omega
    · rintro (h | ⟨hEq, _⟩)
      · rw [jsStrLt_asymm _ _ h2] at h; cases h
      · rw [hEq, jsStrLt_irrefl] at h2; cases h2
  · have hhost := jsStrLt_conn _ _ (by simpa using h1) (by simpa using h2)
    constructor
    · intro h
      refine Or.inr ⟨hhost, Or.inl ?_⟩
      omega
    · rintro (h | ⟨_, h | ⟨hr, _⟩⟩)
      · rw [hhost, jsStrLt_irrefl] at h; cases h
      · omega
      · exact absurd hr h3
  · have hhost := jsStrLt_conn _ _ (by simpa using h1) (by simpa using h2)
    simp only [not_not] at h3
    simp [hhost, h3, h4, jsStrLt_irrefl]
  · have hhost := jsStrLt_conn _ _ (by simpa using h1) (by simpa using h2)
    simp only [not_not] at h3
    constructor
    · omega
    · rintro (h | ⟨_, h | ⟨_, h | ⟨hnt, _⟩⟩⟩)
      · rw [hhost, jsStrLt_irrefl] at h; cases h
      · omega
      · rw [jsStrLt_asymm _ _ h5] at h; cases h
      · rw [hnt, jsStrLt_irrefl] at h5; cases h5
  · have hhost := jsStrLt_conn _ _ (by simpa using h1) (by simpa using h2)
    have hnt := jsStrLt_conn _ _ (by simpa using h4) (by simpa using h5)
    simp only [not_not] at h3
    simp [hhost, h3, hnt, h6, jsStrLt_irrefl]
  · have hhost := jsStrLt_conn _ _ (by simpa using h1) (by simpa using h2)
    have hnt := jsStrLt_conn _ _ (by simpa using h4) (by simpa using h5)
    simp only [not_not] at h3
    constructor
    · omega
    · rintro (h | ⟨_, h | ⟨_, h | ⟨_, h⟩⟩⟩)
      · rw [hhost, jsStrLt_irrefl] at h; cases h
      · omega
      · rw [hnt, jsStrLt_irrefl] at h; cases h
      · exact absurd h h6
  · have hhost := jsStrLt_conn _ _ (by simpa using h1) (by simpa using h2)
    have hnt := jsStrLt_conn _ _ (by simpa using h4) (by simpa using h5)
    have hkey := jsStrLt_conn _ _ (by simpa using h6) (by simpa using h7)
    simp only [not_not] at h3
    simp [hhost, h3, hnt, hkey, jsStrLt_irrefl]

lemma cmpT_zero_iff (a b : Target) : compareTargets a b = 0 ↔ targEq4 a b := by
  simp only [compareTargets, targEq4]
  split_ifs with h1 h2 h3 h4 h5 h6 h7
  · constructor
    · intro h; exact absurd h (by decide)
    · rintro ⟨hEq, _⟩
      rw [hEq, jsStrLt_irrefl] at h1; cases h1
  · constructor
    · intro h; exact absurd h (by decide)
    · rintro ⟨hEq, _⟩
      rw [hEq, jsStrLt_irrefl] at h2; cases h2
  · constructor
    · intro h; exact absurd (show rankOf a = rankOf b by omega) h3
    · rintro ⟨_, hr, _⟩
      exact absurd hr h3
  · have hhost := jsStrLt_conn _ _ (by simpa using h1) (by simpa using h2)
    simp only [not_not] at h3
    constructor
    · intro h; exact absurd h (by decide)
    · rintro ⟨_, _, hnt, _⟩
      rw [hnt, jsStrLt_irrefl] at h4; cases h4
  · have hhost := jsStrLt_conn _ _ (by simpa using h1) (by simpa using h2)
    simp only [not_not] at h3
    constructor
    · intro h; exact absurd h (by decide)
    · rintro ⟨_, _, hnt, _⟩
      rw [hnt, jsStrLt_irrefl] at h5; cases h5
  · have hhost := jsStrLt_conn _ _ (by simpa using h1) (by simpa using h2)
    simp only [not_not] at h3
    constructor
    · intro h; exact absurd h (by decide)
    · rintro ⟨_, _, _, hk⟩
      rw [hk, jsStrLt_irrefl] at h6; cases h6
  · have hhost := jsStrLt_conn _ _ (by simpa using h1) (by simpa using h2)
    simp only [not_not] at h3
    constructor
    · intro h; exact absurd h (by decide)
    · rintro ⟨_, _, _, hk⟩
      rw [hk, jsStrLt_irrefl] at h7; cases h7
  · have hhost := jsStrLt_conn _ _ (by simpa using h1) (by simpa using h2)
    have hnt := jsStrLt_conn _ _ (by simpa using h4) (by simpa using h5)
    have hkey := jsStrLt_conn _ _ (by simpa using h6) (by simpa using h7)
    simp only [not_not] at h3
    simp [hhost, h3, hnt, hkey]

lemma cmpT_pos_iff (a b : Target) : 0 < compareTargets a b ↔ targLt b a := by
  simp only [compareTargets, targLt]
  split_ifs with h1 h2 h3 h4 h5 h6 h7
  · constructor
    · omega
    · rintro (h | ⟨hEq, _⟩)
      · rw [jsStrLt_asymm _ _ h1] at h; cases h
      · rw [hEq, jsStrLt_irrefl] at h1; cases h1
  · simp [h2]
  · have hhost := jsStrLt_conn _ _ (by simpa using h1) (by simpa using h2)
    constructor
    · intro h
      refine Or.inr ⟨hhost.symm, Or.inl ?_⟩
      omega
    · rintro (h | ⟨_, h | ⟨hr, _⟩⟩)
      · rw [hhost, jsStrLt_irrefl] at h; cases h
      · omega
      · exact absurd hr.symm h3
  · have hhost := jsStrLt_conn _ _ (by simpa using h1) (by simpa using h2)
    simp only [not_not] at h3
    constructor
    · omega
    · rintro (h | ⟨_, h | ⟨_, h | ⟨hnt, _⟩⟩⟩)
      · rw [hhost, jsStrLt_irrefl] at h; cases h
      · omega
      · rw [jsStrLt_asymm _ _ h4] at h; cases h
      · rw [hnt, jsStrLt_irrefl] at h4; cases h4
  · have hhost := jsStrLt_conn _ _ (by simpa using h1) (by simpa using h2)
    simp only [not_not] at h3
    simp [hhost, h3, h5, jsStrLt_irrefl]
  · have hhost := jsStrLt_conn _ _ (by simpa using h1) (by simpa using h2)
    have hnt := jsStrLt_conn _ _ (by simpa using h4) (by simpa using h5)
    simp only [not_not] at h3
    constructor
    · omega
    · rintro (h | ⟨_, h | ⟨_, h | ⟨_, h⟩⟩⟩)
      · rw [hhost, jsStrLt_irrefl] at h; cases h
      · omega
      · rw [hnt, jsStrLt_irrefl] at h; cases h
      · rw [jsStrLt_asymm _ _ h6] at h; cases h
  · have hhost := jsStrLt_conn _ _ (by simpa using h1) (by simpa using h2)
    have hnt := jsStrLt_conn _ _ (by simpa using h4) (by simpa using h5)
    simp only [not_not] at h3
    simp [hhost, h3, hnt, h7, jsStrLt_irrefl]
  · have hhost := jsStrLt_conn _ _ (by simpa using h1) (by simpa using h2)
    have hnt := jsStrLt_conn _ _ (by simpa using h4) (by simpa using h5)
    have hkey := jsStrLt_conn _ _ (by simpa using h6) (by simpa using h7)
    simp only [not_not] at h3
    simp [hhost, h3, hnt, hkey, jsStrLt_irrefl]

lemma targLt_trans (a b c : Target) : targLt a b → targLt b c → targLt a c := by
  rintro (h1 | ⟨e1, h1⟩) (h2 | ⟨e2, h2⟩)
  · exact Or.inl (jsStrLt_trans _ _ _ h1 h2)
  · exact Or.inl (e2 ▸ h1)
  · exact Or.inl (e1 ▸ h2)
  · refine Or.inr ⟨e1.trans e2, ?_⟩
    rcases h1 with hr1 | ⟨er1, h1⟩ <;> rcases h2 with hr2 | ⟨er2, h2⟩
    · exact Or.inl (lt_trans hr1 hr2)
    · exact Or.inl (er2 ▸ hr1)
    · exact Or.inl (er1 ▸ hr2)
    · refine Or.inr ⟨er1.trans er2, ?_⟩
      rcases h1 with hn1 | ⟨en1, h1⟩ <;> rcases h2 with hn2 | ⟨en2, h2⟩
      · exact Or.inl (jsStrLt_trans _ _ _ hn1 hn2)
      · exact Or.inl (en2 ▸ hn1)
      · exact Or.inl (en1 ▸ hn2)
      · exact Or.inr ⟨en1.trans en2, jsStrLt_trans _ _ _ h1 h2⟩

lemma targLt_of_lt_eq (a b c : Target) : targLt a b → targEq4 b c → targLt a c := by
  rintro h1 ⟨e1, e2, e3, e4⟩
  unfold targLt at h1 ⊢
  rw [← e1, ← e2, ← e3, ← e4]
  exact h1

lemma targLt_of_eq_lt (a b c : Target) : targEq4 a b → targLt b c → targLt a c := by
  rintro ⟨e1, e2, e3, e4⟩ h2
  unfold targLt at h2 ⊢
  rw [e1, e2, e3, e4]
  exact h2

lemma cmpT_le_iff (a b : Target) :
    compareTargets a b ≤ 0 ↔ (targLt a b ∨ targEq4 a b) := by
  constructor
  · intro h
    rcases lt_or_eq_of_le h with h' | h'
    · exact Or.inl ((cmpT_neg_iff a b).mp h')
    · exact Or.inr ((cmpT_zero_iff a b).mp h')
  · rintro (h | h)
    · exact le_of_lt ((cmpT_neg_iff a b).mpr h)
    · exact le_of_eq ((cmpT_zero_iff a b).mpr h)

lemma cmpT_total (a b : Target) : compareTargets a b ≤ 0 ∨ compareTargets b a ≤ 0 := by
  by_cases h : compareTargets a b ≤ 0
  · exact Or.inl h
  · right
    have : 0 < compareTargets a b := by omega
    exact le_of_lt ((cmpT_neg_iff b a).mpr ((cmpT_pos_iff a b).mp this))

lemma cmpT_antisym_eq4 (a b : Target)
    (h1 : compareTargets a b ≤ 0) (h2 : compareTargets b a ≤ 0) : targEq4 a b := by
  rcases lt_or_eq_of_le h1 with h' | h'
  · have : 0 < compareTargets b a :=
      (cmpT_pos_iff b a).mpr ((cmpT_neg_iff a b).mp h')
    omega
  · exact (cmpT_zero_iff a b).mp h'

lemma cmpT_le_trans (a b c : Target)
    (h1 : compareTargets a b ≤ 0) (h2 : compareTargets b c ≤ 0) :
    compareTargets a c ≤ 0 := by
  rw [cmpT_le_iff] at h1 h2 ⊢
  rcases h1 with h1 | h1 <;> rcases h2 with h2 | h2
  · exact Or.inl (targLt_trans a b c h1 h2)
  · exact Or.inl (targLt_of_lt_eq a b c h1 h2)
  · exact Or.inl (targLt_of_eq_lt a b c h1 h2)
  · refine Or.inr ⟨h1.1.trans h2.1, h1.2.1.trans h2.2.1,
      h1.2.2.1.trans h2.2.2.1, h1.2.2.2.trans h2.2.2.2⟩

lemma pairwise_insertCmp {α : Type} (cmp : α → α → Int)
    (htot : ∀ a b, cmp a b ≤ 0 ∨ cmp b a ≤ 0)
    (htr : ∀ a b c, cmp a b ≤ 0 → cmp b c ≤ 0 → cmp a c ≤ 0)
    (x : α) (l : List α) (hl : l.Pairwise (fun a b => cmp a b ≤ 0)) :
    (insertCmp cmp x l).Pairwise (fun a b => cmp a b ≤ 0) := by
  induction l with
  | nil => simp [insertCmp]
  | cons y ys ih =>
    rcases List.pairwise_cons.mp hl with ⟨hy, hys⟩
    by_cases h : cmp x y ≤ 0
    · simp only [insertCmp, if_pos h]
      refine List.pairwise_cons.mpr ⟨?_, hl⟩
      intro z hz
      rcases List.mem_cons.mp hz with rfl | hz'
      · exact h
      · exact htr x y z h (hy z hz')
    · simp only [insertCmp, if_neg h]
      refine List.pairwise_cons.mpr ⟨?_, ih hys⟩
      intro z hz
      have hz' := (insertCmp_perm cmp x ys).mem_iff.mp hz
      rcases List.mem_cons.mp hz' with rfl | hz''
      · rcases htot z y with h' | h'
        · exact absurd h' h
        · exact h'
      · exact hy z hz''

lemma pairwise_sortJs {α : Type} (cmp : α → α → Int)
    (htot : ∀ a b, cmp a b ≤ 0 ∨ cmp b a ≤ 0)
    (htr : ∀ a b c, cmp a b ≤ 0 → cmp b c ≤ 0 → cmp a c ≤ 0)
    (l : List α) : (sortJs cmp l).Pairwise (fun a b => cmp a b ≤ 0) := by
  induction l with
  | nil => simp [sortJs]
  | cons x xs ih => exact pairwise_insertCmp cmp htot htr x (sortJs cmp xs) ih

lemma canonGo_subset :
    ∀ (raws : List String) (seen : List String), ∀ t ∈ canonGo raws seen,
      ∃ r ∈ raws, parseTarget r = t ∧ t.host ≠ "" ∧ jsKeyOf t ≠ "" ∧ jsKeyOf t ∉ seen := by
  intro raws
  induction raws with
  | nil => intro seen t ht; cases ht
  | cons r rest ih =>
    intro seen t ht
    by_cases h1 : (parseTarget r).host = ""
    · simp only [canonGo, if_pos h1] at ht
      obtain ⟨r', hr', h⟩ := ih seen t ht
      exact ⟨r', List.mem_cons_of_mem r hr', h⟩
    · simp only [canonGo, if_neg h1] at ht
      by_cases h2 : jsKeyOf (parseTarget r) = ""
      · rw [if_pos h2] at ht
        obtain ⟨r', hr', h⟩ := ih seen t ht
        exact ⟨r', List.mem_cons_of_mem r hr', h⟩
      · rw [if_neg h2] at ht
        by_cases h3 : jsKeyOf (parseTarget r) ∈ seen
        · rw [if_pos h3] at ht
          obtain ⟨r', hr', h⟩ := ih seen t ht
          exact ⟨r', List.mem_cons_of_mem r hr', h⟩
        · rw [if_neg h3] at ht
          rcases List.mem_cons.mp ht with rfl | ht'
          · exact ⟨r, List.mem_cons_self r rest, rfl, h1, h2, h3⟩
          · obtain ⟨r', hr', hpt, hh, hk, hseen⟩ := ih _ t ht'
            refine ⟨r', List.mem_cons_of_mem r hr', hpt, hh, hk, fun hc => hseen ?_⟩
            exact List.mem_cons_of_mem _ hc

lemma canonGo_keys :
    ∀ (raws : List String) (seen : List String),
      (∀ t ∈ canonGo raws seen, jsKeyOf t ∉ seen) ∧
      (canonGo raws seen).Pairwise (fun a b => jsKeyOf a ≠ jsKeyOf b) := by
  intro raws
  induction raws with
  | nil => intro seen; constructor <;> simp [canonGo]
  | cons r rest ih =>
    intro seen
    by_cases h1 : (parseTarget r).host = ""
    · simpa only [canonGo, if_pos h1] using ih seen
    · simp only [canonGo, if_neg h1]
      by_cases h2 : jsKeyOf (parseTarget r) = ""
      · simpa only [if_pos h2] using ih seen
      · rw [if_neg h2]
        by_cases h3 : jsKeyOf (parseTarget r) ∈ seen
        · simpa only [if_pos h3] using ih seen
        · rw [if_neg h3]
          have hrec := ih (jsKeyOf (parseTarget r) :: seen)
          constructor
          · intro t ht
            rcases List.mem_cons.mp ht with rfl | ht'
            · exact h3
            · intro hc
              exact hrec.1 t ht' (List.mem_cons_of_mem _ hc)
          · refine List.pairwise_cons.mpr ⟨?_, hrec.2⟩
            intro t ht hkey
            apply hrec.1 t ht
            rw [← hkey]
            exact List.mem_cons_self _ _

lemma canonGo_mem (L : List String)
    (hinjL : ∀ r₁ ∈ L, ∀ r₂ ∈ L,
      (parseTarget r₁).host ≠ "" → (parseTarget r₂).host ≠ "" →
      (parseTarget r₁).key = (parseTarget r₂).key →
      parseTarget r₁ = parseTarget r₂) :
    ∀ (raws : List String), raws ⊆ L → ∀ (seen : List String), ∀ r ∈ raws,
      (parseTarget r).host ≠ "" → jsKeyOf (parseTarget r) ≠ "" →
      jsKeyOf (parseTarget r) ∉ seen →
      parseTarget r ∈ canonGo raws seen := by
  intro raws
  induction raws with
  | nil => intro _ seen r hr; cases hr
  | cons r' rest ih =>
    intro hsub seen r hr hh hk hseen
    have hsub' : rest ⊆ L := fun x hx => hsub (List.mem_cons_of_mem r' hx)
    by_cases h1 : (parseTarget r').host = ""
    · simp only [canonGo, if_pos h1]
      rcases List.mem_cons.mp hr with rfl | hr'
      · exact absurd h1 hh
      · exact ih hsub' seen r hr' hh hk hseen
    · simp only [canonGo, if_neg h1]
      by_cases h2 : jsKeyOf (parseTarget r') = ""
      · rw [if_pos h2]
        rcases List.mem_cons.mp hr with rfl | hr'
        · exact absurd h2 hk
        · exact ih hsub' seen r hr' hh hk hseen
      · rw [if_neg h2]
        by_cases h3 : jsKeyOf (parseTarget r') ∈ seen
        · rw [if_pos h3]
          rcases List.mem_cons.mp hr with rfl | hr'
          · exact absurd h3 hseen
          · exact ih hsub' seen r hr' hh hk hseen
        · rw [if_neg h3]
          rcases List.mem_cons.mp hr with rfl | hr'
          · exact List.mem_cons_self _ _
          · by_cases hkeq : jsKeyOf (parseTarget r) = jsKeyOf (parseTarget r')
            · have : parseTarget r = parseTarget r' := by
                apply hinjL r (hsub (List.mem_cons_of_mem r' hr')) r'
                  (hsub (List.mem_cons_self r' rest)) hh h1
                rw [← jsKeyOf_parseTarget, ← jsKeyOf_parseTarget, hkeq]
              rw [this]
              exact List.mem_cons_self _ _
            · refine List.mem_cons_of_mem _ (ih hsub' _ r hr' hh hk ?_)
              intro hc
              rcases List.mem_cons.mp hc with hc' | hc'
              · exact hkeq hc'
              · exact hseen hc'

/-- C3 (amended): `canonicalizeTargets` is permutation-invariant on every
raw list whose valid descriptors have injective keys (equal canonical keys
imply equal descriptors).  The hypothesis is forced by the counterexample:
dedup keeps the first descriptor per key, so when two distinct raw
spellings collide on a key the surviving descriptor depends on input
order. -/
theorem canonicalize_order_invariant (raws raws' : List String)
    (hperm : raws.Perm raws')
    (hinj : ∀ r₁ ∈ raws, ∀ r₂ ∈ raws,
      (parseTarget r₁).host ≠ "" → (parseTarget r₂).host ≠ "" →
      (parseTarget r₁).key = (parseTarget r₂).key →
      parseTarget r₁ = parseTarget r₂) :
    canonicalizeTargets raws = canonicalizeTargets raws' := by
  have hinj' : ∀ r₁ ∈ raws', ∀ r₂ ∈ raws',
      (parseTarget r₁).host ≠ "" → (parseTarget r₂).host ≠ "" →
      (parseTarget r₁).key = (parseTarget r₂).key →
      parseTarget r₁ = parseTarget r₂ := by
    intro r₁ h₁ r₂ h₂
    exact hinj r₁ (hperm.symm.subset h₁) r₂ (hperm.symm.subset h₂)
  have hnodup : ∀ rs : List String, (canonGo rs []).Nodup := by
    intro rs
    refine ((canonGo_keys rs []).2).imp ?_
    intro a b hne heq
    exact hne (by rw [heq])
  have hmem : ∀ (A B : List String), A.Perm B →
      (∀ r₁ ∈ A, ∀ r₂ ∈ A,
        (parseTarget r₁).host ≠ "" → (parseTarget r₂).host ≠ "" →
        (parseTarget r₁).key = (parseTarget r₂).key →
        parseTarget r₁ = parseTarget r₂) →
      ∀ t ∈ canonGo A [], t ∈ canonGo B [] := by
    intro A B hAB hinjA t ht
    obtain ⟨r, hr, hpt, hh, hk, _⟩ := canonGo_subset A [] t ht
    have hh' : (parseTarget r).host ≠ "" := by rw [hpt]; exact hh
    have hk' : jsKeyOf (parseTarget r) ≠ "" := by rw [hpt]; exact hk
    rw [← hpt]
    exact canonGo_mem A hinjA B hAB.symm.subset [] r (hAB.subset hr) hh' hk'
      (by simp)
  have hdperm : (canonGo raws []).Perm (canonGo raws' []) :=
    (List.perm_ext_iff_of_nodup (hnodup raws) (hnodup raws')).mpr
      (fun t => ⟨hmem raws raws' hperm hinj t, hmem raws' raws hperm.symm hinj' t⟩)
  show sortJs compareTargets (canonGo raws []) = sortJs compareTargets (canonGo raws' [])
  apply @List.Perm.eq_of_sorted Target (fun a b => compareTargets a b ≤ 0) _ _
  · intro a b ha hb hab hba
    rw [mem_sortJs] at ha hb
    obtain ⟨r₁, hr₁, hpt₁, hh₁, hk₁, _⟩ := canonGo_subset raws [] a ha
    obtain ⟨r₂, hr₂, hpt₂, hh₂, hk₂, _⟩ := canonGo_subset raws' [] b hb
    have heq4 := cmpT_antisym_eq4 a b hab hba
    have hkey : a.key = b.key := heq4.2.2.2
    have : parseTarget r₁ = parseTarget r₂ := by
      apply hinj r₁ hr₁ r₂ (hperm.symm.subset hr₂)
      · rw [hpt₁]; exact hh₁
      · rw [hpt₂]; exact hh₂
      · rw [hpt₁, hpt₂]; exact hkey
    rw [← hpt₁, ← hpt₂, this]
  · exact pairwise_sortJs compareTargets cmpT_total cmpT_le_trans _
  · exact pairwise_sortJs compareTargets cmpT_total cmpT_le_trans _
  · exact ((sortJs_perm compareTargets _).trans hdperm).trans
      (sortJs_perm compareTargets _).symm

/-- Witness for `canonicalize_order_invariant` on a concrete permuted pair. -/
theorem canonicalize_order_invariant_witness :
    canonicalizeTargets ["b.com", "a.com", "b.com"] =
      canonicalizeTargets ["a.com", "b.com", "b.com"] :=
  canonicalize_order_invariant ["b.com", "a.com", "b.com"]
    ["a.com", "b.com", "b.com"] (by decide) (by decide)

/-- C3 (counterexample): `canonicalizeTargets` is not invariant under
permutation of the raw list.  `"a!b"` and `"a,b"` parse to distinct
descriptors with the identical key `domain--a_b`; dedup keeps whichever
comes first, so the two orders produce different descriptor sequences. -/
theorem canonicalize_perm_cx :
    (["a,b", "a!b"] : List String).Perm ["a!b", "a,b"] ∧
    canonicalizeTargets ["a!b", "a,b"] ≠ canonicalizeTargets ["a,b", "a!b"] := by
  constructor
  · decide
  · decide
